import Mathlib

/-!
Verification development for `mindnlp/transformers/models/mobilenet_v2/modeling_mobilenet_v2.py`.

The Python model code is declarative: it wires symbolic tensor operations
(convolution, batch normalisation, activation, pooling, concatenation) into
fixed architectures and threads data through them.  We embed it shallowly:

* tensors are symbolic expressions (`TExpr`), so a forward pass is a pure
  function building an expression tree that records exactly which layers were
  applied, with which parameters, in which order;
* Python `int` is `ℤ`, Python `float` arithmetic is modelled exactly over `ℚ`
  (`int(...)` is truncation toward zero, `round` is round-half-to-even,
  `//` on ints is `Int.fdiv`, `%` is `Int.emod`);
* `raise ValueError` becomes `Except String`;
* configuration objects are records of the fields the module reads.
-/

/-- Python `int(x)` on a float/rational: truncation toward zero. -/
def ratTrunc (q : ℚ) : ℤ := if 0 ≤ q then ⌊q⌋ else -⌊-q⌋

/-- Python 3 `round(x)` on a float/rational: nearest integer, ties to even. -/
def pyRound (q : ℚ) : ℤ :=
  if q - ⌊q⌋ < 1/2 then ⌊q⌋
  else if 1/2 < q - ⌊q⌋ then ⌊q⌋ + 1
  else if ⌊q⌋ % 2 = 0 then ⌊q⌋ else ⌊q⌋ + 1

/-- `make_divisible` from `modeling_mobilenet_v2.py` (lines 38-50):
`new_value = max(min_value, int(value + divisor / 2) // divisor * divisor)`,
then one extra `divisor` is added when `new_value < 0.9 * value`.
The float constants `divisor / 2` and `0.9` are modelled exactly in `ℚ`. -/
def make_divisible (value : ℤ) (divisor : ℤ := 8) (min_value : Option ℤ := none) : ℤ :=
  let min_value := min_value.getD divisor
  let new_value := max min_value ((ratTrunc ((value : ℚ) + (divisor : ℚ) / 2)).fdiv divisor * divisor)
  if (new_value : ℚ) < 9/10 * (value : ℚ) then new_value + divisor else new_value

/-- The configuration fields of `MobileNetV2Config` that the module reads.
The configuration class itself lives outside this file's sources; the fields
and their meaning are exactly those consumed by `modeling_mobilenet_v2.py`. -/
structure MobileNetV2Config where
  num_channels : ℤ
  depth_multiplier : ℚ
  depth_divisible_by : ℤ
  min_depth : ℤ
  expand_ratio : ℚ
  output_stride : ℕ
  first_layer_is_expansion : Bool
  finegrained_output : Bool
  hidden_act : String
  tf_padding : Bool
  layer_norm_eps : ℚ
  output_hidden_states : Bool
  use_return_dict : Bool
  num_labels : ℤ
  problem_type : Option String
  semantic_loss_ignore_index : ℤ
  deriving Repr, DecidableEq

/-- `apply_depth_multiplier` (lines 53-54):
`make_divisible(int(round(channels * config.depth_multiplier)), config.depth_divisible_by, config.min_depth)`. -/
def apply_depth_multiplier (config : MobileNetV2Config) (channels : ℤ) : ℤ :=
  make_divisible (pyRound ((channels : ℚ) * config.depth_multiplier))
    config.depth_divisible_by (some config.min_depth)

/-- Parameters of an `nn.Conv2d` as constructed in `MobileNetV2ConvLayer.__init__`. -/
structure Conv2dSpec where
  in_channels : ℤ
  out_channels : ℤ
  kernel_size : ℕ
  stride : ℕ
  padding : ℕ
  dilation : ℕ
  groups : ℤ
  bias : Bool
  deriving Repr, DecidableEq

/-- Parameters of the `nn.BatchNorm2d` constructed in `MobileNetV2ConvLayer.__init__`
(momentum 0.997, affine, tracking running stats — all fixed there). -/
structure BatchNorm2dSpec where
  num_features : ℤ
  eps : ℚ
  deriving Repr, DecidableEq

/-- Symbolic tensors: a forward pass builds an expression tree recording every
primitive tensor operation the Python code applies, with its parameters.
`interpolate ref align t` is `F.interpolate(t, size=ref.shape[-2:], mode="bilinear",
align_corners=align)`: the first argument records which tensor supplies the
target spatial size.  `cat` is `ops.cat([a, b], dim=dim)` (always two tensors here). -/
inductive TExpr where
  | var (n : ℕ)
  | tfPad (conv : Conv2dSpec) (t : TExpr)
  | conv2d (conv : Conv2dSpec) (t : TExpr)
  | batchNorm (bn : BatchNorm2dSpec) (t : TExpr)
  | act (name : String) (t : TExpr)
  | add (a b : TExpr)
  | adaptiveAvgPool (output_size : ℕ) (t : TExpr)
  | flatten (start_dim : ℕ) (t : TExpr)
  | linear (in_features out_features : ℤ) (t : TExpr)
  | dropout (t : TExpr)
  | interpolate (ref : TExpr) (align_corners : Bool) (t : TExpr)
  | cat (dim : ℕ) (a b : TExpr)
  | squeeze (t : TExpr)
  | view (shape : List ℤ) (t : TExpr)
  deriving Repr, DecidableEq

/-- The convolutions applied inside an expression, in application order
(left to right, innermost first). -/
def TExpr.convs : TExpr → List Conv2dSpec
  | .var _ => []
  | .tfPad _ t => t.convs
  | .conv2d c t => t.convs ++ [c]
  | .batchNorm _ t => t.convs
  | .act _ t => t.convs
  | .add a b => a.convs ++ b.convs
  | .adaptiveAvgPool _ t => t.convs
  | .flatten _ t => t.convs
  | .linear _ _ t => t.convs
  | .dropout t => t.convs
  | .interpolate _ _ t => t.convs
  | .cat _ a b => a.convs ++ b.convs
  | .squeeze t => t.convs
  | .view _ t => t.convs

/-- The `use_activation` argument of `MobileNetV2ConvLayer.__init__`,
a Python `Union[bool, str]`. -/
inductive ActArg where
  | bool (b : Bool)
  | str (s : String)
  deriving Repr, DecidableEq

/-- The state of a constructed `MobileNetV2ConvLayer`: the conv parameters,
whether TF-style padding is applied in `forward`, the optional batch norm and
the optional activation (resolved to the activation's name). -/
structure MobileNetV2ConvLayer where
  tf_padding : Bool
  convolution : Conv2dSpec
  normalization : Option BatchNorm2dSpec
  activation : Option String
  deriving Repr, DecidableEq

instance : Inhabited MobileNetV2ConvLayer :=
  ⟨⟨false, ⟨0, 0, 0, 0, 0, 0, 0, false⟩, none, none⟩⟩

/-- The record built by `MobileNetV2ConvLayer.__init__` once its divisibility
checks have passed (lines 115-147).  `padding = 0` under TF padding, else
`int((kernel_size - 1) / 2) * dilation`; the batch-norm eps is
`config.layer_norm_eps` unless overridden; the activation is the given name if a
string was passed, else `config.hidden_act` when `use_activation` is truthy. -/
def convLayerOf (config : MobileNetV2Config) (in_channels out_channels : ℤ)
    (kernel_size stride : ℕ) (groups : ℤ) (bias : Bool) (dilation : ℕ)
    (use_normalization : Bool) (use_activation : ActArg)
    (layer_norm_eps : Option ℚ) : MobileNetV2ConvLayer :=
  { tf_padding := config.tf_padding
    convolution :=
      { in_channels := in_channels
        out_channels := out_channels
        kernel_size := kernel_size
        stride := stride
        padding := if config.tf_padding then 0 else (kernel_size - 1) / 2 * dilation
        dilation := dilation
        groups := groups
        bias := bias }
    normalization :=
      if use_normalization then
        some { num_features := out_channels, eps := layer_norm_eps.getD config.layer_norm_eps }
      else none
    activation :=
      match use_activation with
      | .str s => some s
      | .bool true => some config.hidden_act
      | .bool false => none }

/-- `MobileNetV2ConvLayer.__init__` (lines 93-147): raises when the channel
counts are not divisible by `groups`, otherwise builds the layer.
(The Python messages interpolate the offending values; we keep the fixed text.) -/
def mkConvLayer (config : MobileNetV2Config) (in_channels out_channels : ℤ)
    (kernel_size : ℕ) (stride : ℕ := 1) (groups : ℤ := 1) (bias : Bool := false)
    (dilation : ℕ := 1) (use_normalization : Bool := true)
    (use_activation : ActArg := .bool true) (layer_norm_eps : Option ℚ := none) :
    Except String MobileNetV2ConvLayer :=
  if in_channels % groups ≠ 0 then
    .error "Input channels are not divisible by groups."
  else if out_channels % groups ≠ 0 then
    .error "Output channels are not divisible by groups."
  else
    .ok (convLayerOf config in_channels out_channels kernel_size stride groups bias
      dilation use_normalization use_activation layer_norm_eps)

/-- `MobileNetV2ConvLayer.forward` (lines 149-157): optional TF padding, the
convolution, optional normalisation, optional activation. -/
def MobileNetV2ConvLayer.forward (l : MobileNetV2ConvLayer) (features : TExpr) : TExpr :=
  let features := if l.tf_padding then .tfPad l.convolution features else features
  let features := .conv2d l.convolution features
  let features := match l.normalization with
    | some bn => .batchNorm bn features
    | none => features
  match l.activation with
  | some a => .act a features
  | none => features

/-- The expanded channel count computed in `MobileNetV2InvertedResidual.__init__`
(lines 166-168): `make_divisible(int(round(in_channels * config.expand_ratio)),
config.depth_divisible_by, config.min_depth)`. -/
def expandedChannels (config : MobileNetV2Config) (in_channels : ℤ) : ℤ :=
  make_divisible (pyRound ((in_channels : ℚ) * config.expand_ratio))
    config.depth_divisible_by (some config.min_depth)

/-- A constructed `MobileNetV2InvertedResidual`. -/
structure MobileNetV2InvertedResidual where
  use_residual : Bool
  expand_1x1 : MobileNetV2ConvLayer
  conv_3x3 : MobileNetV2ConvLayer
  reduce_1x1 : MobileNetV2ConvLayer
  deriving Repr, DecidableEq

instance : Inhabited MobileNetV2InvertedResidual :=
  ⟨⟨false, default, default, default⟩⟩

/-- The record built by `MobileNetV2InvertedResidual.__init__` once the stride
check has passed (lines 160-195): `use_residual = (stride == 1) and
(in_channels == out_channels)`; `expand_1x1` is a 1x1 conv to the expanded
channels; `conv_3x3` is the depthwise 3x3 conv (`groups = expanded_channels`)
with the given stride and dilation; `reduce_1x1` is a 1x1 conv to
`out_channels` with `use_activation=False`. -/
def invertedResidualOf (config : MobileNetV2Config) (in_channels out_channels : ℤ)
    (stride dilation : ℕ) : MobileNetV2InvertedResidual :=
  let expanded_channels := expandedChannels config in_channels
  { use_residual := stride == 1 && in_channels == out_channels
    expand_1x1 := convLayerOf config in_channels expanded_channels 1 1 1 false 1
      true (.bool true) none
    conv_3x3 := convLayerOf config expanded_channels expanded_channels 3 stride
      expanded_channels false dilation true (.bool true) none
    reduce_1x1 := convLayerOf config expanded_channels out_channels 1 1 1 false 1
      true (.bool false) none }

/-- `MobileNetV2InvertedResidual.__init__` (lines 160-195): raises
`ValueError` unless `stride in [1, 2]`, then builds the three conv layers
(each of which may itself raise). -/
def mkInvertedResidual (config : MobileNetV2Config) (in_channels out_channels : ℤ)
    (stride : ℕ) (dilation : ℕ := 1) : Except String MobileNetV2InvertedResidual :=
  let expanded_channels := expandedChannels config in_channels
  if ¬(stride = 1 ∨ stride = 2) then
    .error "Invalid stride."
  else do
    let _ ← mkConvLayer config in_channels expanded_channels 1
    let _ ← mkConvLayer config expanded_channels expanded_channels 3 stride
      expanded_channels false dilation
    let _ ← mkConvLayer config expanded_channels out_channels 1 1 1 false 1
      true (.bool false)
    .ok (invertedResidualOf config in_channels out_channels stride dilation)

/-- `MobileNetV2InvertedResidual.forward` (lines 197-204): the three conv
layers in order, plus the input as a residual when `use_residual`. -/
def MobileNetV2InvertedResidual.forward (blk : MobileNetV2InvertedResidual)
    (features : TExpr) : TExpr :=
  let residual := features
  let features := blk.expand_1x1.forward features
  let features := blk.conv_3x3.forward features
  let features := blk.reduce_1x1.forward features
  if blk.use_residual then .add residual features else features

/-- A constructed `MobileNetV2Stem`. -/
structure MobileNetV2Stem where
  first_conv : MobileNetV2ConvLayer
  expand_1x1 : Option MobileNetV2ConvLayer
  conv_3x3 : MobileNetV2ConvLayer
  reduce_1x1 : MobileNetV2ConvLayer
  deriving Repr, DecidableEq

/-- The record built by `MobileNetV2Stem.__init__` (lines 207-243): a 3x3
stride-2 conv to the expanded channels, an optional extra 1x1 expansion (absent
when `config.first_layer_is_expansion`), a depthwise 3x3, and a 1x1 projection
with no activation. -/
def stemOf (config : MobileNetV2Config) (in_channels expanded_channels out_channels : ℤ) :
    MobileNetV2Stem :=
  { first_conv := convLayerOf config in_channels expanded_channels 3 2 1 false 1
      true (.bool true) none
    expand_1x1 :=
      if config.first_layer_is_expansion then none
      else some (convLayerOf config expanded_channels expanded_channels 1 1 1 false 1
        true (.bool true) none)
    conv_3x3 := convLayerOf config expanded_channels expanded_channels 3 1
      expanded_channels false 1 true (.bool true) none
    reduce_1x1 := convLayerOf config expanded_channels out_channels 1 1 1 false 1
      true (.bool false) none }

/-- `MobileNetV2Stem.__init__` as a fallible constructor (its conv layers
perform divisibility checks). -/
def mkStem (config : MobileNetV2Config) (in_channels expanded_channels out_channels : ℤ) :
    Except String MobileNetV2Stem := do
  let _ ← mkConvLayer config in_channels expanded_channels 3 2
  let _ ← (if config.first_layer_is_expansion then Except.ok default
    else mkConvLayer config expanded_channels expanded_channels 1 :
      Except String MobileNetV2ConvLayer)
  let _ ← mkConvLayer config expanded_channels expanded_channels 3 1 expanded_channels
  let _ ← mkConvLayer config expanded_channels out_channels 1 1 1 false 1
    true (.bool false)
  .ok (stemOf config in_channels expanded_channels out_channels)

/-- `MobileNetV2Stem.forward` (lines 245-251). -/
def MobileNetV2Stem.forward (s : MobileNetV2Stem) (features : TExpr) : TExpr :=
  let features := s.first_conv.forward features
  let features := match s.expand_1x1 with
    | some e => e.forward features
    | none => features
  let features := s.conv_3x3.forward features
  s.reduce_1x1.forward features

/-- Output channels for the projection layers (`MobileNetV2Model.__init__`,
line 285), before the depth multiplier is applied. -/
def baseChannels : List ℤ := [16, 24, 24, 32, 32, 32, 64, 64, 64, 64, 96, 96, 96, 160, 160, 160, 320]

/-- Strides for the depthwise layers (`MobileNetV2Model.__init__`, line 289). -/
def baseStrides : List ℕ := [2, 1, 2, 1, 1, 2, 1, 1, 1, 1, 1, 1, 2, 1, 1, 1]

/-- The per-block plan the construction loop of `MobileNetV2Model.__init__`
(lines 298-321) follows.  Each entry is
`(current_stride, dilation, layer_stride, layer_dilation)`: the cumulative
stride and dilation *before* the block, and the stride and dilation the block
is built with.  When `current_stride == config.output_stride` the block keeps
stride 1 and takes the accumulated dilation (which is then multiplied by the
nominal stride); otherwise it takes the nominal stride (multiplied into the
cumulative stride) and dilation 1. -/
structure PlanEntry where
  current_stride : ℕ
  dilation : ℕ
  layer_stride : ℕ
  layer_dilation : ℕ
  deriving Repr, DecidableEq

instance : Inhabited PlanEntry := ⟨⟨0, 0, 0, 0⟩⟩

def layerPlan (output_stride : ℕ) : List ℕ → ℕ → ℕ → List PlanEntry
  | [], _, _ => []
  | s :: rest, current_stride, dilation =>
    if current_stride = output_stride then
      ⟨current_stride, dilation, 1, dilation⟩ ::
        layerPlan output_stride rest current_stride (dilation * s)
    else
      ⟨current_stride, dilation, s, 1⟩ ::
        layerPlan output_stride rest (current_stride * s) dilation

/-- The construction loop of `MobileNetV2Model.__init__` (lines 298-321),
recursing over the channel and stride lists: block `i` takes `channels[i]` in
and `channels[i + 1]` out, with the stride and dilation chosen exactly as in
the loop body. -/
def buildLayers (config : MobileNetV2Config) :
    List ℤ → List ℕ → ℕ → ℕ → Except String (List MobileNetV2InvertedResidual)
  | cin :: cout :: cs, s :: rest, current_stride, dilation =>
    if current_stride = config.output_stride then do
      let blk ← mkInvertedResidual config cin cout 1 dilation
      let more ← buildLayers config (cout :: cs) rest current_stride (dilation * s)
      .ok (blk :: more)
    else do
      let blk ← mkInvertedResidual config cin cout s 1
      let more ← buildLayers config (cout :: cs) rest (current_stride * s) dilation
      .ok (blk :: more)
  | _, [], _, _ => .ok []
  | _, _ :: _, _, _ => .error "channel list exhausted"

/-- A constructed `MobileNetV2Model`.  `pooler = true` records that
`add_pooling_layer` was set, so `self.pooler` is an `AdaptiveAvgPool2d((1, 1))`. -/
structure MobileNetV2Model where
  config : MobileNetV2Config
  conv_stem : MobileNetV2Stem
  layer : List MobileNetV2InvertedResidual
  conv_1x1 : MobileNetV2ConvLayer
  pooler : Bool
  deriving Repr, DecidableEq

/-- `MobileNetV2Model.__init__` (lines 280-338): the depth-multiplied channel
list, the stem (expanding to `apply_depth_multiplier(config, 32)`), the sixteen
inverted-residual blocks from the construction loop, the final 1x1 conv (to
1280 channels, depth-multiplied unless `finegrained_output` with a multiplier
below one), and the optional pooler. -/
def mkMobileNetV2Model (config : MobileNetV2Config) (add_pooling_layer : Bool := true) :
    Except String MobileNetV2Model := do
  let channels := baseChannels.map (apply_depth_multiplier config)
  let conv_stem ← mkStem config config.num_channels (apply_depth_multiplier config 32)
    (channels.getD 0 0)
  let layer ← buildLayers config channels baseStrides 2 1
  let output_channels : ℤ :=
    if config.finegrained_output ∧ config.depth_multiplier < 1 then 1280
    else apply_depth_multiplier config 1280
  let conv_1x1 ← mkConvLayer config (channels.getD 16 0) output_channels 1
  .ok { config := config, conv_stem := conv_stem, layer := layer,
        conv_1x1 := conv_1x1, pooler := add_pooling_layer }

/-- The encoder loop of `MobileNetV2Model.forward` (lines 361-365): each block
transforms the hidden state, and when hidden states are collected the block's
output is appended to the tuple. -/
def encoderLoop (layers : List MobileNetV2InvertedResidual)
    (hidden_states : TExpr) (output_hidden_states : Bool)
    (all_hidden_states : Option (List TExpr)) : TExpr × Option (List TExpr) :=
  match layers with
  | [] => (hidden_states, all_hidden_states)
  | l :: rest =>
    let hidden_states := l.forward hidden_states
    encoderLoop rest hidden_states output_hidden_states
      (if output_hidden_states then all_hidden_states.map (· ++ [hidden_states])
       else all_hidden_states)

/-- An element of a Python result tuple here: either a tensor or a tuple of
tensors (the collected hidden states). -/
inductive Value where
  | tensor (t : TExpr)
  | tensorTuple (ts : List TExpr)
  deriving Repr, DecidableEq

/-- `BaseModelOutputWithPoolingAndNoAttention`. -/
structure BaseModelOutputWithPoolingAndNoAttention where
  last_hidden_state : TExpr
  pooler_output : Option TExpr
  hidden_states : Option (List TExpr)
  deriving Repr, DecidableEq

/-- The result of `MobileNetV2Model.forward`: a plain tuple when
`return_dict` is false, otherwise the named output record. -/
inductive ModelResult where
  | tuple (vs : List Value)
  | record (o : BaseModelOutputWithPoolingAndNoAttention)
  deriving Repr, DecidableEq

/-- `MobileNetV2Model.forward` (lines 343-381).  The `None`-defaulted
arguments resolve against the config; a missing `pixel_values` raises; the
stem, the sixteen blocks (collecting hidden states when asked), the final 1x1
conv, the optional pooling (flattened from dimension 1), and the tuple /
record output convention. -/
def MobileNetV2Model.forward (m : MobileNetV2Model) (pixel_values : Option TExpr)
    (output_hidden_states : Option Bool := none) (return_dict : Option Bool := none) :
    Except String ModelResult :=
  let output_hidden_states := output_hidden_states.getD m.config.output_hidden_states
  let return_dict := return_dict.getD m.config.use_return_dict
  match pixel_values with
  | none => .error "You have to specify pixel_values"
  | some pixel_values =>
    let hidden_states := m.conv_stem.forward pixel_values
    let all_hidden_states : Option (List TExpr) :=
      if output_hidden_states then some [] else none
    let (hidden_states, all_hidden_states) :=
      encoderLoop m.layer hidden_states output_hidden_states all_hidden_states
    let last_hidden_state := m.conv_1x1.forward hidden_states
    let pooled_output : Option TExpr :=
      if m.pooler then some (.flatten 1 (.adaptiveAvgPool 1 last_hidden_state))
      else none
    if ¬return_dict then
      .ok (.tuple ([Value.tensor last_hidden_state]
        ++ (match pooled_output with
            | some p => [Value.tensor p]
            | none => [])
        ++ (match all_hidden_states with
            | some hs => [Value.tensorTuple hs]
            | none => [])))
    else
      .ok (.record { last_hidden_state := last_hidden_state,
                     pooler_output := pooled_output,
                     hidden_states := all_hidden_states })

/-- A MindSpore dtype, as far as the loss-selection logic inspects it. -/
inductive DType where
  | int64
  | int32
  | float32
  | other
  deriving Repr, DecidableEq

/-- A labels tensor: its dtype (inspected by the loss selection) and its
symbolic value. -/
structure Labels where
  dtype : DType
  expr : TExpr
  deriving Repr, DecidableEq

/-- A loss value as a symbolic expression: which loss function was called, on
which tensors (`crossEntropy` keeps its optional `ignore_index`). -/
inductive LossExpr where
  | mse (input target : TExpr)
  | crossEntropy (input target : TExpr) (ignore_index : Option ℤ)
  | bceWithLogits (input target : TExpr)
  deriving Repr, DecidableEq

/-- An element of a head model's output tuple: a loss or a tensor value. -/
inductive OutItem where
  | loss (l : LossExpr)
  | val (v : Value)
  deriving Repr, DecidableEq

/-- `ImageClassifierOutputWithNoAttention`. -/
structure ImageClassifierOutputWithNoAttention where
  loss : Option LossExpr
  logits : TExpr
  hidden_states : Option (List TExpr)
  deriving Repr, DecidableEq

/-- The result of `MobileNetV2ForImageClassification.forward`. -/
inductive ClassifierResult where
  | tuple (items : List OutItem)
  | record (o : ImageClassifierOutputWithNoAttention)
  deriving Repr, DecidableEq

/-- A constructed `MobileNetV2ForImageClassification` (lines 385-399):
the backbone (with pooling), `num_labels`, and the classifier head whose input
width is `conv_1x1.convolution.out_channels` (the head is `nn.Identity` when
`num_labels == 0`). -/
structure MobileNetV2ForImageClassification where
  config : MobileNetV2Config
  num_labels : ℤ
  mobilenet_v2 : MobileNetV2Model
  last_hidden_size : ℤ
  deriving Repr, DecidableEq

/-- `MobileNetV2ForImageClassification.__init__`. -/
def mkImageClassification (config : MobileNetV2Config) :
    Except String MobileNetV2ForImageClassification := do
  let mobilenet_v2 ← mkMobileNetV2Model config
  .ok { config := config, num_labels := config.num_labels,
        mobilenet_v2 := mobilenet_v2,
        last_hidden_size := mobilenet_v2.conv_1x1.convolution.out_channels }

/-- The classifier head applied in `forward` (line 416): dropout then
`nn.Linear` (or `nn.Identity` when `num_labels == 0`, which returns its
input). -/
def classifierHead (m : MobileNetV2ForImageClassification) (x : TExpr) : TExpr :=
  if m.num_labels > 0 then .linear m.last_hidden_size m.num_labels (.dropout x)
  else .dropout x

/-- The problem type after the resolution step of
`MobileNetV2ForImageClassification.forward` (lines 420-426): set only when
labels were given and no problem type was configured. -/
def resolvedProblemType (m : MobileNetV2ForImageClassification)
    (labels : Option Labels) : Option String :=
  match labels, m.config.problem_type with
  | some lb, none =>
    if m.num_labels = 1 then some "regression"
    else if m.num_labels > 1 ∧ (lb.dtype = .int64 ∨ lb.dtype = .int32) then
      some "single_label_classification"
    else some "multi_label_classification"
  | _, pt => pt

/-- `MobileNetV2ForImageClassification.forward` (lines 402-446).  Returns the
problem type as mutated on `self.config` together with the result.  The pooled
output is read from the backbone's record or from slot 1 of its tuple; the
loss is selected by the (resolved) problem type; the tuple output prepends the
loss only when one was computed. -/
def imageClassificationForward (m : MobileNetV2ForImageClassification)
    (pixel_values : Option TExpr) (output_hidden_states : Option Bool := none)
    (labels : Option Labels := none) (return_dict : Option Bool := none) :
    Except String (Option String × ClassifierResult) := do
  let return_dict := return_dict.getD m.config.use_return_dict
  let outputs ← m.mobilenet_v2.forward pixel_values output_hidden_states (some return_dict)
  let pooled_output : TExpr ←
    if return_dict then
      match outputs with
      | .record o =>
        match o.pooler_output with
        | some p => Except.ok p
        | none => Except.error "pooler_output is None"
      | .tuple _ => Except.error "expected a record output"
    else
      match outputs with
      | .tuple vs =>
        match vs[1]? with
        | some (Value.tensor p) => Except.ok p
        | _ => Except.error "tuple index out of range"
      | .record _ => Except.error "expected a tuple output"
  let logits := classifierHead m pooled_output
  let problem_type := resolvedProblemType m labels
  let loss : Option LossExpr :=
    match labels with
    | none => none
    | some lb =>
      if problem_type = some "regression" then
        if m.num_labels = 1 then some (.mse (.squeeze logits) (.squeeze lb.expr))
        else some (.mse logits lb.expr)
      else if problem_type = some "single_label_classification" then
        some (.crossEntropy (.view [-1, m.num_labels] logits) (.view [-1] lb.expr) none)
      else if problem_type = some "multi_label_classification" then
        some (.bceWithLogits logits lb.expr)
      else none
  if ¬return_dict then
    match outputs with
    | .tuple vs =>
      let output := OutItem.val (.tensor logits) :: (vs.drop 2).map OutItem.val
      .ok (problem_type, .tuple (match loss with
        | some l => .loss l :: output
        | none => output))
    | .record _ => .error "expected a tuple output"
  else
    match outputs with
    | .record o =>
      .ok (problem_type, .record { loss := loss, logits := logits,
                                   hidden_states := o.hidden_states })
    | .tuple _ => .error "expected a record output"

/-- A constructed `MobileNetV2DeepLabV3Plus` head (lines 455-503): the four
conv layers (the average pool and dropout carry no parameters we track). -/
structure MobileNetV2DeepLabV3Plus where
  conv_pool : MobileNetV2ConvLayer
  conv_aspp : MobileNetV2ConvLayer
  conv_projection : MobileNetV2ConvLayer
  classifier : MobileNetV2ConvLayer
  deriving Repr, DecidableEq

/-- `MobileNetV2DeepLabV3Plus.__init__`: `conv_pool` and `conv_aspp` map the
depth-multiplied 320 encoder channels to 256 (1x1, batch-norm with eps 1e-5,
ReLU); `conv_projection` maps the 512 concatenated channels to 256;
`classifier` is a bare biased 1x1 conv to `config.num_labels` channels. -/
def mkDeepLabV3Plus (config : MobileNetV2Config) :
    Except String MobileNetV2DeepLabV3Plus := do
  let conv_pool ← mkConvLayer config (apply_depth_multiplier config 320) 256 1 1 1
    false 1 true (.str "relu") (some (1/100000))
  let conv_aspp ← mkConvLayer config (apply_depth_multiplier config 320) 256 1 1 1
    false 1 true (.str "relu") (some (1/100000))
  let conv_projection ← mkConvLayer config 512 256 1 1 1
    false 1 true (.str "relu") (some (1/100000))
  let classifier ← mkConvLayer config 256 config.num_labels 1 1 1
    true 1 false (.bool false)
  .ok { conv_pool := conv_pool, conv_aspp := conv_aspp,
        conv_projection := conv_projection, classifier := classifier }

/-- `MobileNetV2DeepLabV3Plus.forward` (lines 505-521): global average pool to
1x1, `conv_pool`, bilinear upsampling back to the input's spatial size
(`align_corners=True`); `conv_aspp` on the unpooled features; channel-wise
concatenation; projection, dropout, classifier. -/
def deepLabV3PlusForward (h : MobileNetV2DeepLabV3Plus) (features : TExpr) : TExpr :=
  let features_pool := TExpr.adaptiveAvgPool 1 features
  let features_pool := h.conv_pool.forward features_pool
  let features_pool := TExpr.interpolate features true features_pool
  let features_aspp := h.conv_aspp.forward features
  let fused := TExpr.cat 1 features_pool features_aspp
  h.classifier.forward (.dropout (h.conv_projection.forward fused))

/-- `SemanticSegmenterOutput` (attentions is always `None` here). -/
structure SemanticSegmenterOutput where
  loss : Option LossExpr
  logits : TExpr
  hidden_states : Option (List TExpr)
  attentions : Option (List TExpr)
  deriving Repr, DecidableEq

/-- The result of `MobileNetV2ForSemanticSegmentation.forward`. -/
inductive SegResult where
  | tuple (items : List OutItem)
  | record (o : SemanticSegmenterOutput)
  deriving Repr, DecidableEq

/-- A constructed `MobileNetV2ForSemanticSegmentation` (lines 525-534): the
backbone without pooling and the DeepLabV3+ head. -/
structure MobileNetV2ForSemanticSegmentation where
  config : MobileNetV2Config
  num_labels : ℤ
  mobilenet_v2 : MobileNetV2Model
  segmentation_head : MobileNetV2DeepLabV3Plus
  deriving Repr, DecidableEq

/-- `MobileNetV2ForSemanticSegmentation.__init__`. -/
def mkSemanticSegmentation (config : MobileNetV2Config) :
    Except String MobileNetV2ForSemanticSegmentation := do
  let mobilenet_v2 ← mkMobileNetV2Model config false
  let segmentation_head ← mkDeepLabV3Plus config
  .ok { config := config, num_labels := config.num_labels,
        mobilenet_v2 := mobilenet_v2, segmentation_head := segmentation_head }

/-- `MobileNetV2ForSemanticSegmentation.forward` (lines 537-610).  The labels
check precedes everything else the method does besides resolving the two
`None`-defaulted flags; the backbone is then run with
`output_hidden_states=True`, the head is applied to the last hidden state, and
the loss (when labels were given) is a cross-entropy on the bilinearly
upsampled logits with `config.semantic_loss_ignore_index`. -/
def semanticSegmentationForward (m : MobileNetV2ForSemanticSegmentation)
    (pixel_values : Option TExpr) (labels : Option Labels := none)
    (output_hidden_states : Option Bool := none) (return_dict : Option Bool := none) :
    Except String SegResult :=
  let output_hidden_states := output_hidden_states.getD m.config.output_hidden_states
  let return_dict := return_dict.getD m.config.use_return_dict
  if labels.isSome ∧ m.config.num_labels = 1 then
    .error "The number of labels should be greater than one"
  else do
    let outputs ← m.mobilenet_v2.forward pixel_values (some true) (some return_dict)
    let encoder_hidden_states : List TExpr ←
      if return_dict then
        match outputs with
        | .record o =>
          match o.hidden_states with
          | some hs => Except.ok hs
          | none => Except.error "hidden_states is None"
        | .tuple _ => Except.error "expected a record output"
      else
        match outputs with
        | .tuple vs =>
          match vs[1]? with
          | some (Value.tensorTuple hs) => Except.ok hs
          | _ => Except.error "tuple index out of range"
        | .record _ => Except.error "expected a tuple output"
    let last ← match encoder_hidden_states.getLast? with
      | some t => Except.ok t
      | none => Except.error "list index out of range"
    let logits := deepLabV3PlusForward m.segmentation_head last
    let loss : Option LossExpr := labels.map fun lb =>
      .crossEntropy (.interpolate lb.expr false logits) lb.expr
        (some m.config.semantic_loss_ignore_index)
    if ¬return_dict then
      match outputs with
      | .tuple vs =>
        let tail := ((if output_hidden_states then vs.drop 1 else vs.drop 2).map OutItem.val)
        let output := OutItem.val (.tensor logits) :: tail
        .ok (.tuple (match loss with
          | some l => .loss l :: output
          | none => output))
      | .record _ => .error "expected a tuple output"
    else
      match outputs with
      | .record o =>
        .ok (.record { loss := loss, logits := logits,
                       hidden_states := if output_hidden_states then o.hidden_states else none,
                       attentions := none })
      | .tuple _ => .error "expected a record output"

/-- The hidden state after running a list of blocks in sequence
(specification view of the encoder loop's first component). -/
def runBlocks (layers : List MobileNetV2InvertedResidual) (h : TExpr) : TExpr :=
  match layers with
  | [] => h
  | l :: rest => runBlocks rest (l.forward h)

/-- The per-block outputs of running a list of blocks in sequence: element `i`
is the output of block `i`, each block consuming the previous block's output
(specification view of the collected hidden states). -/
def blockOutputs (layers : List MobileNetV2InvertedResidual) (h : TExpr) : List TExpr :=
  match layers with
  | [] => []
  | l :: rest => l.forward h :: blockOutputs rest (l.forward h)

/-- The cumulative stride after the whole construction loop, following the
same recurrence the loop applies to `current_stride`. -/
def cumStride (output_stride : ℕ) : List ℕ → ℕ → ℕ
  | [], current_stride => current_stride
  | s :: rest, current_stride =>
    cumStride output_stride rest
      (if current_stride = output_stride then current_stride else current_stride * s)

/-- Read the collected hidden states off a `MobileNetV2Model.forward` result:
the `hidden_states` field of a record, or the trailing tuple-of-tensors of a
plain tuple. -/
def ModelResult.hiddenStatesOf : ModelResult → Option (List TExpr)
  | .record o => o.hidden_states
  | .tuple vs =>
    match vs.getLast? with
    | some (.tensorTuple hs) => some hs
    | _ => none

/-- Read the last hidden state off a `MobileNetV2Model.forward` result: the
`last_hidden_state` field of a record, or slot 0 of a plain tuple. -/
def ModelResult.lastHiddenOf : ModelResult → Option TExpr
  | .record o => some o.last_hidden_state
  | .tuple vs =>
    match vs.head? with
    | some (.tensor t) => some t
    | _ => none

/-- Read the loss off a `MobileNetV2ForImageClassification.forward` result:
the `loss` field of a record, or a loss standing first in a plain tuple. -/
def ClassifierResult.lossOf : ClassifierResult → Option LossExpr
  | .record o => o.loss
  | .tuple items =>
    match items.head? with
    | some (.loss l) => some l
    | _ => none

/-- Read the loss off a `MobileNetV2ForSemanticSegmentation.forward` result:
the `loss` field of a record, or a loss standing first in a plain tuple. -/
def SegResult.lossOf : SegResult → Option LossExpr
  | .record o => o.loss
  | .tuple items =>
    match items.head? with
    | some (.loss l) => some l
    | _ => none

/-- Whether a fallible forward call succeeded. -/
def exIsOk {α : Type} (e : Except String α) : Bool :=
  match e with
  | .ok _ => true
  | .error _ => false

/-- The problem type a `MobileNetV2ForImageClassification.forward` call left
on the configuration (none when the call failed). -/
def exClsProblemType (e : Except String (Option String × ClassifierResult)) :
    Option String :=
  match e with
  | .ok (pt, _) => pt
  | .error _ => none

/-- The loss of a successful `MobileNetV2ForImageClassification.forward`
call (none when the call failed or no loss was computed). -/
def exClsLoss (e : Except String (Option String × ClassifierResult)) :
    Option LossExpr :=
  match e with
  | .ok (_, res) => res.lossOf
  | .error _ => none

/-- The result of a successful `MobileNetV2ForImageClassification.forward`
call. -/
def exClsResult (e : Except String (Option String × ClassifierResult)) :
    Option ClassifierResult :=
  match e with
  | .ok (_, res) => some res
  | .error _ => none

/-- The logits `MobileNetV2ForImageClassification.forward` computes on a
present input: the classifier head on the flattened pooled encoder output. -/
def clsLogits (mcls : MobileNetV2ForImageClassification) (pv : TExpr) : TExpr :=
  classifierHead mcls (.flatten 1 (.adaptiveAvgPool 1
    (mcls.mobilenet_v2.conv_1x1.forward (runBlocks mcls.mobilenet_v2.layer
      (mcls.mobilenet_v2.conv_stem.forward pv)))))

/-- The loss `MobileNetV2ForImageClassification.forward` computes, as a
function of the labels argument and the logits: none without labels,
otherwise selected by the resolved problem type. -/
def clsLossChoice (mcls : MobileNetV2ForImageClassification)
    (lbopt : Option Labels) (logits : TExpr) : Option LossExpr :=
  match lbopt with
  | none => none
  | some lb =>
    if resolvedProblemType mcls lbopt = some "regression" then
      if mcls.num_labels = 1 then some (.mse (.squeeze logits) (.squeeze lb.expr))
      else some (.mse logits lb.expr)
    else if resolvedProblemType mcls lbopt = some "single_label_classification" then
      some (.crossEntropy (.view [-1, mcls.num_labels] logits) (.view [-1] lb.expr) none)
    else if resolvedProblemType mcls lbopt = some "multi_label_classification" then
      some (.bceWithLogits logits lb.expr)
    else none

/-- A concrete configuration (the release defaults of MobileNetV2-1.0: unit
depth multiplier, divisor and minimum depth 8, expansion ratio 6, output
stride 32, relu6 activations), used to instantiate the theorems below on
closed inputs. -/
def cfgW : MobileNetV2Config :=
  { num_channels := 3
    depth_multiplier := 1
    depth_divisible_by := 8
    min_depth := 8
    expand_ratio := 6
    output_stride := 32
    first_layer_is_expansion := true
    finegrained_output := true
    hidden_act := "relu6"
    tf_padding := true
    layer_norm_eps := 1/1000
    output_hidden_states := false
    use_return_dict := true
    num_labels := 2
    problem_type := none
    semantic_loss_ignore_index := 255 }

instance : Inhabited MobileNetV2Config := ⟨cfgW⟩

instance : Inhabited MobileNetV2Stem := ⟨⟨default, none, default, default⟩⟩

instance : Inhabited MobileNetV2Model := ⟨⟨default, default, [], default, false⟩⟩

instance : Inhabited MobileNetV2ForImageClassification := ⟨⟨default, 0, default, 0⟩⟩

instance : Inhabited MobileNetV2DeepLabV3Plus := ⟨⟨default, default, default, default⟩⟩

instance : Inhabited MobileNetV2ForSemanticSegmentation := ⟨⟨default, 0, default, default⟩⟩

/-- The concrete inverted-residual block `mkInvertedResidual cfgW 16 16 1 1`
produces. -/
def invW : MobileNetV2InvertedResidual :=
  (mkInvertedResidual cfgW 16 16 1 1).toOption.getD default

/-- The concrete model `mkMobileNetV2Model cfgW true` produces. -/
def mW : MobileNetV2Model :=
  (mkMobileNetV2Model cfgW true).toOption.getD default

/-- The concrete classifier `mkImageClassification cfgW` produces. -/
def clsW : MobileNetV2ForImageClassification :=
  (mkImageClassification cfgW).toOption.getD default

/-- The concrete DeepLabV3+ head `mkDeepLabV3Plus cfgW` produces. -/
def dlW : MobileNetV2DeepLabV3Plus :=
  (mkDeepLabV3Plus cfgW).toOption.getD default

/-- `cfgW` with a single label, exercising the segmentation head's label
check. -/
def cfgW1 : MobileNetV2Config :=
  { cfgW with num_labels := 1 }

/-- The concrete segmentation model `mkSemanticSegmentation cfgW1` produces. -/
def segW : MobileNetV2ForSemanticSegmentation :=
  (mkSemanticSegmentation cfgW1).toOption.getD default

lemma except_bind_ok {α β : Type} {x : Except String α} {f : α → Except String β} {b : β} :
    x >>= f = .ok b ↔ ∃ a, x = .ok a ∧ f a = .ok b := by
  cases x with
  | error e => simp [Bind.bind, Except.bind]
  | ok a => simp [Bind.bind, Except.bind]

lemma mkConvLayer_ok {c : MobileNetV2Config} {i o : ℤ} {k s : ℕ} {g : ℤ} {b : Bool}
    {d : ℕ} {un : Bool} {ua : ActArg} {eps : Option ℚ} {l : MobileNetV2ConvLayer}
    (h : mkConvLayer c i o k s g b d un ua eps = .ok l) :
    l = convLayerOf c i o k s g b d un ua eps := by
  unfold mkConvLayer at h
  split at h
  · simp at h
  · split at h
    · simp at h
    · simp only [Except.ok.injEq] at h
      exact h.symm

lemma mkInvertedResidual_ok {c : MobileNetV2Config} {ci co : ℤ} {s d : ℕ}
    {blk : MobileNetV2InvertedResidual}
    (h : mkInvertedResidual c ci co s d = .ok blk) :
    (s = 1 ∨ s = 2) ∧ blk = invertedResidualOf c ci co s d := by
  by_cases hs : s = 1 ∨ s = 2
  · refine ⟨hs, ?_⟩
    rw [mkInvertedResidual] at h
    rw [if_neg (not_not_intro hs)] at h
    rcases except_bind_ok.mp h with ⟨a1, _, h⟩
    rcases except_bind_ok.mp h with ⟨a2, _, h⟩
    rcases except_bind_ok.mp h with ⟨a3, _, h⟩
    simp only [Except.ok.injEq] at h
    exact h.symm
  · rw [mkInvertedResidual, if_pos (by simpa using hs)] at h
    simp at h

lemma mkStem_ok {c : MobileNetV2Config} {i e o : ℤ} {st : MobileNetV2Stem}
    (h : mkStem c i e o = .ok st) : st = stemOf c i e o := by
  rw [mkStem] at h
  rcases except_bind_ok.mp h with ⟨a1, _, h⟩
  rcases except_bind_ok.mp h with ⟨a2, _, h⟩
  rcases except_bind_ok.mp h with ⟨a3, _, h⟩
  rcases except_bind_ok.mp h with ⟨a4, _, h⟩
  simp only [Except.ok.injEq] at h
  exact h.symm

lemma mkDeepLabV3Plus_ok {c : MobileNetV2Config} {hd : MobileNetV2DeepLabV3Plus}
    (h : mkDeepLabV3Plus c = .ok hd) :
    hd = { conv_pool := convLayerOf c (apply_depth_multiplier c 320) 256 1 1 1 false 1
             true (.str "relu") (some (1/100000))
           conv_aspp := convLayerOf c (apply_depth_multiplier c 320) 256 1 1 1 false 1
             true (.str "relu") (some (1/100000))
           conv_projection := convLayerOf c 512 256 1 1 1 false 1
             true (.str "relu") (some (1/100000))
           classifier := convLayerOf c 256 c.num_labels 1 1 1 true 1 false
             (.bool false) none } := by
  rw [mkDeepLabV3Plus] at h
  rcases except_bind_ok.mp h with ⟨a1, h1, h⟩
  rcases except_bind_ok.mp h with ⟨a2, h2, h⟩
  rcases except_bind_ok.mp h with ⟨a3, h3, h⟩
  rcases except_bind_ok.mp h with ⟨a4, h4, h⟩
  simp only [Except.ok.injEq] at h
  rw [← h, mkConvLayer_ok h1, mkConvLayer_ok h2, mkConvLayer_ok h3, mkConvLayer_ok h4]

lemma mkModel_ok {c : MobileNetV2Config} {pool : Bool} {m : MobileNetV2Model}
    (h : mkMobileNetV2Model c pool = .ok m) :
    m.config = c ∧ m.pooler = pool ∧
    m.conv_stem = stemOf c c.num_channels (apply_depth_multiplier c 32)
      ((baseChannels.map (apply_depth_multiplier c)).getD 0 0) ∧
    buildLayers c (baseChannels.map (apply_depth_multiplier c)) baseStrides 2 1 = .ok m.layer ∧
    m.conv_1x1 = convLayerOf c ((baseChannels.map (apply_depth_multiplier c)).getD 16 0)
      (if c.finegrained_output ∧ c.depth_multiplier < 1 then 1280
       else apply_depth_multiplier c 1280) 1 1 1 false 1 true (.bool true) none := by
  rw [mkMobileNetV2Model] at h
  rcases except_bind_ok.mp h with ⟨st, hst, h⟩
  rcases except_bind_ok.mp h with ⟨ls, hls, h⟩
  rcases except_bind_ok.mp h with ⟨cv, hcv, h⟩
  simp only [Except.ok.injEq] at h
  subst h
  exact ⟨rfl, rfl, mkStem_ok hst, hls, mkConvLayer_ok hcv⟩

lemma encoderLoop_false (ls : List MobileNetV2InvertedResidual) (h : TExpr)
    (a : Option (List TExpr)) : encoderLoop ls h false a = (runBlocks ls h, a) := by
  induction ls generalizing h with
  | nil => simp [encoderLoop, runBlocks]
  | cons l rest ih => simp [encoderLoop, runBlocks, ih]

lemma encoderLoop_true (ls : List MobileNetV2InvertedResidual) (h : TExpr)
    (acc : List TExpr) :
    encoderLoop ls h true (some acc) = (runBlocks ls h, some (acc ++ blockOutputs ls h)) := by
  induction ls generalizing h acc with
  | nil => simp [encoderLoop, runBlocks, blockOutputs]
  | cons l rest ih =>
    simp [encoderLoop, runBlocks, blockOutputs, ih, Option.map]

lemma blockOutputs_length (ls : List MobileNetV2InvertedResidual) (h : TExpr) :
    (blockOutputs ls h).length = ls.length := by
  induction ls generalizing h with
  | nil => rfl
  | cons l rest ih => simp [blockOutputs, ih]

lemma blockOutputs_getD (ls : List MobileNetV2InvertedResidual) (h : TExpr)
    (d : TExpr) : ∀ i, i < ls.length →
    (blockOutputs ls h).getD i d = runBlocks (ls.take (i + 1)) h := by
  induction ls generalizing h with
  | nil => intro i hi; simp at hi
  | cons l rest ih =>
    intro i hi
    cases i with
    | zero => simp [blockOutputs, runBlocks]
    | succ i =>
      simp only [blockOutputs, List.getD_cons_succ, List.take, runBlocks]
      exact ih (l.forward h) i (by simpa using hi)

lemma blockOutputs_getLast (ls : List MobileNetV2InvertedResidual) (h : TExpr)
    (hne : ls ≠ []) : (blockOutputs ls h).getLast? = some (runBlocks ls h) := by
  induction ls generalizing h with
  | nil => exact absurd rfl hne
  | cons l rest ih =>
    cases rest with
    | nil => simp [blockOutputs, runBlocks]
    | cons l2 rest2 =>
      have := ih (l.forward h) (by simp)
      simp only [blockOutputs, runBlocks] at this ⊢
      rw [List.getLast?_cons_cons]
      exact this

lemma layerPlan_length (os : ℕ) (ss : List ℕ) : ∀ cur dil,
    (layerPlan os ss cur dil).length = ss.length := by
  induction ss with
  | nil => intro cur dil; rfl
  | cons s rest ih =>
    intro cur dil
    by_cases hc : cur = os <;> simp [layerPlan, hc, ih]

lemma layerPlan_getD_of_eq (os : ℕ) (ss : List ℕ) : ∀ dil j, j < ss.length →
    ((layerPlan os ss os dil).getD j default).current_stride = os := by
  induction ss with
  | nil => intro dil j hj; simp at hj
  | cons s rest ih =>
    intro dil j hj
    cases j with
    | zero => simp [layerPlan]
    | succ j =>
      simp only [layerPlan, if_pos rfl, List.getD_cons_succ]
      exact ih (dil * s) j (by simpa using hj)

lemma cumStride_of_eq (os : ℕ) (ss : List ℕ) : cumStride os ss os = os := by
  induction ss with
  | nil => rfl
  | cons s rest ih => simpa [cumStride] using ih

lemma layerPlan_mono (os : ℕ) (ss : List ℕ) : ∀ cur dil i j, i ≤ j → j < ss.length →
    ((layerPlan os ss cur dil).getD i default).current_stride = os →
    ((layerPlan os ss cur dil).getD j default).current_stride = os := by
  induction ss with
  | nil => intro cur dil i j _ hj; simp at hj
  | cons s rest ih =>
    intro cur dil i j hij hj hi
    cases i with
    | zero =>
      have hcur : cur = os := by
        by_cases hc : cur = os
        · exact hc
        · simp [layerPlan, hc] at hi
      cases j with
      | zero => exact hi
      | succ j =>
        rw [hcur]
        simp only [layerPlan, if_pos rfl, List.getD_cons_succ]
        exact layerPlan_getD_of_eq os rest (dil * s) j (by simpa using hj)
    | succ i =>
      cases j with
      | zero => omega
      | succ j =>
        by_cases hc : cur = os
        · rw [hc] at hi ⊢
          simp only [layerPlan, if_pos rfl, List.getD_cons_succ] at hi ⊢
          exact ih os (dil * s) i j (by omega) (by simpa using hj) hi
        · simp only [layerPlan, if_neg hc, List.getD_cons_succ] at hi ⊢
          exact ih (cur * s) dil i j (by omega) (by simpa using hj) hi

lemma layerPlan_current_prod (os : ℕ) (ss : List ℕ) : ∀ cur dil j, j < ss.length →
    ((layerPlan os ss cur dil).getD j default).current_stride =
      cur * (((layerPlan os ss cur dil).take j).map PlanEntry.layer_stride).prod := by
  induction ss with
  | nil => intro cur dil j hj; simp at hj
  | cons s rest ih =>
    intro cur dil j hj
    cases j with
    | zero => by_cases hc : cur = os <;> simp [layerPlan, hc]
    | succ j =>
      by_cases hc : cur = os
      · rw [hc]
        rw [show layerPlan os (s :: rest) os dil =
          ⟨os, dil, 1, dil⟩ :: layerPlan os rest os (dil * s) from by
            rw [layerPlan, if_pos rfl]]
        simp only [List.getD_cons_succ, List.take, List.map_cons, List.prod_cons]
        rw [ih os (dil * s) j (by simpa using hj)]
        ring
      · rw [show layerPlan os (s :: rest) cur dil =
          ⟨cur, dil, s, 1⟩ :: layerPlan os rest (cur * s) dil from by
            rw [layerPlan, if_neg hc]]
        simp only [List.getD_cons_succ, List.take, List.map_cons, List.prod_cons]
        rw [ih (cur * s) dil j (by simpa using hj)]
        ring

lemma buildLayers_ok (c : MobileNetV2Config) : ∀ (ss : List ℕ) (chans : List ℤ)
    (cur dil : ℕ) (l : List MobileNetV2InvertedResidual),
    buildLayers c chans ss cur dil = .ok l →
    l.length = ss.length ∧
    ∀ i, i < ss.length →
      l.getD i default = invertedResidualOf c (chans.getD i 0) (chans.getD (i + 1) 0)
        (((layerPlan c.output_stride ss cur dil).getD i default).layer_stride)
        (((layerPlan c.output_stride ss cur dil).getD i default).layer_dilation) := by
  intro ss
  induction ss with
  | nil =>
    intro chans cur dil l h
    have hl : l = [] := by
      cases chans with
      | nil =>
        simp only [buildLayers, Except.ok.injEq] at h
        exact h.symm
      | cons cin cs =>
        cases cs with
        | nil =>
          simp only [buildLayers, Except.ok.injEq] at h
          exact h.symm
        | cons cout cs2 =>
          simp only [buildLayers, Except.ok.injEq] at h
          exact h.symm
    subst hl
    exact ⟨rfl, fun i hi => absurd hi (by simp)⟩
  | cons s rest ih =>
    intro chans cur dil l h
    cases chans with
    | nil => simp [buildLayers] at h
    | cons cin cs =>
      cases cs with
      | nil => simp [buildLayers] at h
      | cons cout cs2 =>
        rw [buildLayers] at h
        by_cases hc : cur = c.output_stride
        · rw [if_pos hc] at h
          rcases except_bind_ok.mp h with ⟨blk, hblk, h⟩
          rcases except_bind_ok.mp h with ⟨more, hmore, h⟩
          simp only [Except.ok.injEq] at h
          subst h
          obtain ⟨-, hblk'⟩ := mkInvertedResidual_ok hblk
          obtain ⟨hlen, hidx⟩ := ih (cout :: cs2) cur (dil * s) more hmore
          refine ⟨by simp [hlen], ?_⟩
          intro i hi
          rw [show layerPlan c.output_stride (s :: rest) cur dil =
            ⟨cur, dil, 1, dil⟩ :: layerPlan c.output_stride rest cur (dil * s) from by
              rw [layerPlan, if_pos hc]]
          cases i with
          | zero => simpa using hblk'
          | succ i =>
            simp only [List.getD_cons_succ]
            exact hidx i (by simpa using hi)
        · rw [if_neg hc] at h
          rcases except_bind_ok.mp h with ⟨blk, hblk, h⟩
          rcases except_bind_ok.mp h with ⟨more, hmore, h⟩
          simp only [Except.ok.injEq] at h
          subst h
          obtain ⟨-, hblk'⟩ := mkInvertedResidual_ok hblk
          obtain ⟨hlen, hidx⟩ := ih (cout :: cs2) (cur * s) dil more hmore
          refine ⟨by simp [hlen], ?_⟩
          intro i hi
          rw [show layerPlan c.output_stride (s :: rest) cur dil =
            ⟨cur, dil, s, 1⟩ :: layerPlan c.output_stride rest (cur * s) dil from by
              rw [layerPlan, if_neg hc]]
          cases i with
          | zero => simpa using hblk'
          | succ i =>
            simp only [List.getD_cons_succ]
            exact hidx i (by simpa using hi)

lemma convLayer_forward_convs (l : MobileNetV2ConvLayer) (t : TExpr) :
    (l.forward t).convs = t.convs ++ [l.convolution] := by
  cases hn : l.normalization <;> cases ha : l.activation <;>
    by_cases hp : l.tf_padding <;>
    simp [MobileNetV2ConvLayer.forward, TExpr.convs, hn, ha, hp]

lemma ratTrunc_of_nonneg {q : ℚ} (h : 0 ≤ q) : ratTrunc q = ⌊q⌋ := by
  simp [ratTrunc, h]

lemma ratTrunc_int_add_half (v d : ℤ) (hv : 0 ≤ v) (hd : 0 ≤ d) :
    ratTrunc ((v : ℚ) + (d : ℚ) / 2) = v + d / 2 := by
  have hv' : (0 : ℚ) ≤ (v : ℚ) := by exact_mod_cast hv
  have hd' : (0 : ℚ) ≤ (d : ℚ) := by exact_mod_cast hd
  have h0 : (0 : ℚ) ≤ (v : ℚ) + (d : ℚ) / 2 := by linarith
  rw [ratTrunc_of_nonneg h0, Int.floor_int_add]
  congr 1
  have h2 : ((d : ℚ)) / 2 = ((d : ℚ)) / ((2 : ℕ) : ℚ) := by norm_num
  rw [h2, Rat.floor_intCast_div_natCast]
  norm_num

/-- C3: for positive integer `value` and `divisor` (with `min_value`
defaulting to `divisor`), `make_divisible` returns a multiple of `divisor`
that is at least `min_value = divisor`, at least `0.9 * value`, and at least
zero: the final adjustment adds one `divisor` exactly when the rounded-down
multiple fell below `0.9 * value`, and that always suffices. -/
theorem make_divisible_bounds (v d : ℤ) (hv : 0 < v) (hd : 0 < d) :
    d ∣ make_divisible v d none ∧ d ≤ make_divisible v d none ∧
    (9 : ℚ) / 10 * (v : ℚ) ≤ ((make_divisible v d none : ℤ) : ℚ) ∧
    0 ≤ make_divisible v d none := by
  have ht : ratTrunc ((v : ℚ) + (d : ℚ) / 2) = v + d / 2 :=
    ratTrunc_int_add_half v d hv.le hd.le
  have hfd : (v + d / 2).fdiv d = (v + d / 2) / d := Int.fdiv_eq_ediv _ hd.le
  have hv' : (0 : ℚ) ≤ (v : ℚ) := by exact_mod_cast hv.le
  simp only [make_divisible, Option.getD_none, ht, hfd]
  set t : ℤ := v + d / 2 with htdef
  set q : ℤ := t / d * d with hqdef
  set nv : ℤ := max d q with hnvdef
  have htv : v ≤ t := by
    have : 0 ≤ d / 2 := Int.ediv_nonneg hd.le (by norm_num)
    omega
  have hq2 : t < q + d := by
    have := Int.lt_ediv_add_one_mul_self t hd
    rw [add_mul, one_mul] at this
    omega
  have hdvd_q : d ∣ q := dvd_mul_left d (t / d)
  have hdvd_nv : d ∣ nv := by
    rcases max_choice d q with h | h <;> simp [hnvdef, h, hdvd_q]
  have hd_le_nv : d ≤ nv := le_max_left _ _
  have hq_le_nv : q ≤ nv := le_max_right _ _
  by_cases hlt : ((nv : ℤ) : ℚ) < 9 / 10 * (v : ℚ)
  · rw [if_pos hlt]
    have hvnd : v < nv + d := by omega
    have hvnd' : (v : ℚ) < ((nv + d : ℤ) : ℚ) := by exact_mod_cast hvnd
    refine ⟨dvd_add hdvd_nv dvd_rfl, by omega, ?_, by omega⟩
    push_cast at hvnd' ⊢
    linarith
  · rw [if_neg hlt]
    exact ⟨hdvd_nv, hd_le_nv, le_of_not_lt hlt, by omega⟩

/-- Witness for C3 at `value = 100`, `divisor = 8`:
`make_divisible 100 8 none = 104`. -/
theorem make_divisible_bounds_witness :
    (0 : ℤ) < 100 ∧ (0 : ℤ) < 8 ∧
    ((8 : ℤ) ∣ make_divisible 100 8 none ∧ (8 : ℤ) ≤ make_divisible 100 8 none ∧
     (9 : ℚ) / 10 * ((100 : ℤ) : ℚ) ≤ ((make_divisible 100 8 none : ℤ) : ℚ) ∧
     (0 : ℤ) ≤ make_divisible 100 8 none) :=
  ⟨by norm_num, by norm_num,
    make_divisible_bounds 100 8 (by norm_num) (by norm_num)⟩

/-- C1: a successfully constructed inverted-residual block applies, in order,
exactly the `expand_1x1`, `conv_3x3` and `reduce_1x1` convolutions; the
depthwise `conv_3x3` has `groups` equal to the expanded channel count; the
`reduce_1x1` projection carries no activation; and the input is added as a
skip connection if and only if the block was built with stride 1 and equal
in/out channels — otherwise the projected features are returned alone. -/
theorem invertedResidual_forward_spec (c : MobileNetV2Config) (ic oc : ℤ)
    (s d : ℕ) (blk : MobileNetV2InvertedResidual) (x : TExpr)
    (h : mkInvertedResidual c ic oc s d = .ok blk) :
    (blk.forward x =
      if s = 1 ∧ ic = oc then
        .add x (blk.reduce_1x1.forward (blk.conv_3x3.forward (blk.expand_1x1.forward x)))
      else blk.reduce_1x1.forward (blk.conv_3x3.forward (blk.expand_1x1.forward x))) ∧
    (blk.reduce_1x1.forward (blk.conv_3x3.forward (blk.expand_1x1.forward x))).convs =
      x.convs ++ [blk.expand_1x1.convolution, blk.conv_3x3.convolution,
        blk.reduce_1x1.convolution] ∧
    (∀ n : ℕ, (blk.forward (.var n)).convs =
      [blk.expand_1x1.convolution, blk.conv_3x3.convolution, blk.reduce_1x1.convolution]) ∧
    blk.conv_3x3.convolution.groups = expandedChannels c ic ∧
    blk.conv_3x3.convolution.in_channels = expandedChannels c ic ∧
    blk.conv_3x3.convolution.out_channels = expandedChannels c ic ∧
    blk.conv_3x3.convolution.kernel_size = 3 ∧
    blk.conv_3x3.convolution.stride = s ∧
    blk.conv_3x3.convolution.dilation = d ∧
    blk.expand_1x1.convolution.kernel_size = 1 ∧
    blk.expand_1x1.convolution.in_channels = ic ∧
    blk.reduce_1x1.convolution.kernel_size = 1 ∧
    blk.reduce_1x1.convolution.out_channels = oc ∧
    blk.reduce_1x1.activation = none ∧
    (blk.use_residual = true ↔ s = 1 ∧ ic = oc) := by
  obtain ⟨hs, hblk⟩ := mkInvertedResidual_ok h
  subst hblk
  have hres : (invertedResidualOf c ic oc s d).use_residual = true ↔ s = 1 ∧ ic = oc := by
    simp [invertedResidualOf]
  have hfwd : ∀ y : TExpr, (invertedResidualOf c ic oc s d).forward y =
      if s = 1 ∧ ic = oc then
        .add y ((invertedResidualOf c ic oc s d).reduce_1x1.forward
          ((invertedResidualOf c ic oc s d).conv_3x3.forward
            ((invertedResidualOf c ic oc s d).expand_1x1.forward y)))
      else (invertedResidualOf c ic oc s d).reduce_1x1.forward
        ((invertedResidualOf c ic oc s d).conv_3x3.forward
          ((invertedResidualOf c ic oc s d).expand_1x1.forward y)) := by
    intro y
    by_cases hcond : s = 1 ∧ ic = oc
    · rw [if_pos hcond, MobileNetV2InvertedResidual.forward, if_pos (hres.mpr hcond)]
    · rw [if_neg hcond, MobileNetV2InvertedResidual.forward,
        if_neg (by simpa [hres] using hcond)]
  have hcore : ∀ y : TExpr,
      ((invertedResidualOf c ic oc s d).reduce_1x1.forward
        ((invertedResidualOf c ic oc s d).conv_3x3.forward
          ((invertedResidualOf c ic oc s d).expand_1x1.forward y))).convs =
      y.convs ++ [(invertedResidualOf c ic oc s d).expand_1x1.convolution,
        (invertedResidualOf c ic oc s d).conv_3x3.convolution,
        (invertedResidualOf c ic oc s d).reduce_1x1.convolution] := by
    intro y
    rw [convLayer_forward_convs, convLayer_forward_convs, convLayer_forward_convs]
    simp
  refine ⟨hfwd x, hcore x, ?_, rfl, rfl, rfl, rfl, rfl, rfl, rfl, rfl, rfl, rfl, rfl, hres⟩
  intro n
  rw [hfwd (.var n)]
  by_cases hcond : s = 1 ∧ ic = oc
  · rw [if_pos hcond]
    show (TExpr.var n).convs ++ _ = _
    rw [hcore (.var n)]
    rfl
  · rw [if_neg hcond]
    rw [hcore (.var n)]
    rfl

lemma pyRound_intCast (n : ℤ) : pyRound ((n : ℤ) : ℚ) = n := by
  have h : ⌊((n : ℤ) : ℚ)⌋ = n := Int.floor_intCast n
  rw [pyRound, h]
  norm_num

lemma make_divisible_self {v d mv : ℤ} (hd : 0 < d) (hdvd : d ∣ v) (hmv : mv ≤ v)
    (hv : 0 < v) : make_divisible v d (some mv) = v := by
  have ht : ratTrunc ((v : ℚ) + (d : ℚ) / 2) = v + d / 2 :=
    ratTrunc_int_add_half v d hv.le hd.le
  have hfd : (v + d / 2).fdiv d = (v + d / 2) / d := Int.fdiv_eq_ediv _ hd.le
  have he2 : (d / 2) / d = 0 := by
    apply Int.ediv_eq_zero_of_lt (Int.ediv_nonneg hd.le (by norm_num))
    omega
  obtain ⟨k, hk⟩ := hdvd
  have hq : (v + d / 2) / d * d = v := by
    subst hk
    rw [add_comm, Int.add_mul_ediv_left _ k hd.ne', he2, zero_add, mul_comm]
  have hnv : max mv ((v + d / 2).fdiv d * d) = v := by
    rw [hfd, hq]
    exact max_eq_right hmv
  have hnotlt : ¬ ((v : ℚ) < 9 / 10 * (v : ℚ)) := by
    have hv' : (0 : ℚ) < (v : ℚ) := by exact_mod_cast hv
    intro hcon
    nlinarith
  simp only [make_divisible, Option.getD_some, ht, hnv, hnotlt, if_false]

lemma apply_depth_multiplier_cfgW (x : ℤ) (hdvd : (8 : ℤ) ∣ x) (hx : 8 ≤ x) :
    apply_depth_multiplier cfgW x = x := by
  have h1 : ((x : ℤ) : ℚ) * cfgW.depth_multiplier = ((x : ℤ) : ℚ) := by
    show ((x : ℤ) : ℚ) * 1 = ((x : ℤ) : ℚ)
    ring
  rw [apply_depth_multiplier, h1, pyRound_intCast]
  exact make_divisible_self (by norm_num [cfgW]) hdvd hx (by omega)

lemma expandedChannels_cfgW (ic : ℤ) (hdvd : (8 : ℤ) ∣ ic * 6) (hx : 8 ≤ ic * 6) :
    expandedChannels cfgW ic = ic * 6 := by
  have h1 : ((ic : ℤ) : ℚ) * cfgW.expand_ratio = ((ic * 6 : ℤ) : ℚ) := by
    show ((ic : ℤ) : ℚ) * 6 = ((ic * 6 : ℤ) : ℚ)
    push_cast
    ring
  rw [expandedChannels, h1, pyRound_intCast]
  exact make_divisible_self (by norm_num [cfgW]) hdvd hx (by omega)

lemma mkConvLayer_eq_ok {c : MobileNetV2Config} {i o : ℤ} {k s : ℕ} {g : ℤ} {b : Bool}
    {d : ℕ} {un : Bool} {ua : ActArg} {eps : Option ℚ}
    (h1 : i % g = 0) (h2 : o % g = 0) :
    mkConvLayer c i o k s g b d un ua eps = .ok (convLayerOf c i o k s g b d un ua eps) := by
  simp [mkConvLayer, h1, h2]

lemma mkInvertedResidual_eq_ok {c : MobileNetV2Config} {ic oc : ℤ} {s d : ℕ}
    (hs : s = 1 ∨ s = 2) :
    mkInvertedResidual c ic oc s d = .ok (invertedResidualOf c ic oc s d) := by
  rw [mkInvertedResidual, if_neg (not_not_intro hs)]
  rw [mkConvLayer_eq_ok (Int.emod_one ic) (Int.emod_one _),
    mkConvLayer_eq_ok Int.emod_self Int.emod_self,
    mkConvLayer_eq_ok (Int.emod_one _) (Int.emod_one oc)]
  rfl

lemma mkStem_eq_ok (c : MobileNetV2Config) (i e o : ℤ) :
    mkStem c i e o = .ok (stemOf c i e o) := by
  cases hf : c.first_layer_is_expansion with
  | false =>
    rw [mkStem, mkConvLayer_eq_ok (Int.emod_one i) (Int.emod_one e), hf]
    rw [if_neg (by simp)]
    rw [mkConvLayer_eq_ok (Int.emod_one e) (Int.emod_one e),
      mkConvLayer_eq_ok Int.emod_self Int.emod_self,
      mkConvLayer_eq_ok (Int.emod_one e) (Int.emod_one o)]
    rfl
  | true =>
    rw [mkStem, mkConvLayer_eq_ok (Int.emod_one i) (Int.emod_one e), hf]
    rw [if_pos rfl]
    rw [mkConvLayer_eq_ok Int.emod_self Int.emod_self,
      mkConvLayer_eq_ok (Int.emod_one e) (Int.emod_one o)]
    rfl

lemma buildLayers_isOk (c : MobileNetV2Config) : ∀ (ss : List ℕ) (chans : List ℤ)
    (cur dil : ℕ), (∀ s ∈ ss, s = 1 ∨ s = 2) → ss.length < chans.length →
    ∃ l, buildLayers c chans ss cur dil = .ok l := by
  intro ss
  induction ss with
  | nil =>
    intro chans cur dil _ _
    refine ⟨[], ?_⟩
    cases chans with
    | nil => rfl
    | cons a t => cases t <;> rfl
  | cons s rest ih =>
    intro chans cur dil hall hlen
    cases chans with
    | nil => simp at hlen
    | cons cin t =>
      cases t with
      | nil => simp at hlen
      | cons cout cs =>
        have hs : s = 1 ∨ s = 2 := hall s (by simp)
        have hrest : ∀ x ∈ rest, x = 1 ∨ x = 2 := fun x hx => hall x (by simp [hx])
        by_cases hc : cur = c.output_stride
        · obtain ⟨l, hl⟩ := ih (cout :: cs) cur (dil * s) hrest (by simpa using hlen)
          refine ⟨invertedResidualOf c cin cout 1 dil :: l, ?_⟩
          rw [buildLayers, if_pos hc, mkInvertedResidual_eq_ok (Or.inl rfl)]
          rw [show ∀ x : MobileNetV2InvertedResidual, Except.ok x = pure x from fun _ => rfl]
          rw [pure_bind, hl]
          rfl
        · obtain ⟨l, hl⟩ := ih (cout :: cs) (cur * s) dil hrest (by simpa using hlen)
          refine ⟨invertedResidualOf c cin cout s 1 :: l, ?_⟩
          rw [buildLayers, if_neg hc, mkInvertedResidual_eq_ok hs]
          rw [show ∀ x : MobileNetV2InvertedResidual, Except.ok x = pure x from fun _ => rfl]
          rw [pure_bind, hl]
          rfl

lemma except_ok_bind {α β : Type} (a : α) (f : α → Except String β) :
    (Except.ok a >>= f) = f a := rfl

lemma except_ok_getD {α : Type} [Inhabited α] {e : Except String α} {b : α}
    (h : e = .ok b) : e = .ok (e.toOption.getD default) := by
  rw [h]
  rfl

lemma mkMobileNetV2Model_isOk (c : MobileNetV2Config) (pool : Bool) :
    ∃ m, mkMobileNetV2Model c pool = .ok m := by
  obtain ⟨l, hl⟩ := buildLayers_isOk c baseStrides
    (baseChannels.map (apply_depth_multiplier c)) 2 1 (by decide)
    (by simp [baseChannels, baseStrides])
  refine ⟨{ config := c
            conv_stem := stemOf c c.num_channels (apply_depth_multiplier c 32)
              ((baseChannels.map (apply_depth_multiplier c)).getD 0 0)
            layer := l
            conv_1x1 := convLayerOf c ((baseChannels.map (apply_depth_multiplier c)).getD 16 0)
              (if c.finegrained_output ∧ c.depth_multiplier < 1 then 1280
               else apply_depth_multiplier c 1280) 1 1 1 false 1 true (.bool true) none
            pooler := pool }, ?_⟩
  simp only [mkMobileNetV2Model]
  rw [mkStem_eq_ok, except_ok_bind, hl, except_ok_bind,
    mkConvLayer_eq_ok (Int.emod_one _) (Int.emod_one _), except_ok_bind]

lemma mkDeepLabV3Plus_eq_ok (c : MobileNetV2Config) :
    mkDeepLabV3Plus c =
      .ok { conv_pool := convLayerOf c (apply_depth_multiplier c 320) 256 1 1 1 false 1
              true (.str "relu") (some (1/100000))
            conv_aspp := convLayerOf c (apply_depth_multiplier c 320) 256 1 1 1 false 1
              true (.str "relu") (some (1/100000))
            conv_projection := convLayerOf c 512 256 1 1 1 false 1
              true (.str "relu") (some (1/100000))
            classifier := convLayerOf c 256 c.num_labels 1 1 1 true 1 false
              (.bool false) none } := by
  simp only [mkDeepLabV3Plus,
    mkConvLayer_eq_ok (Int.emod_one _) (Int.emod_one _), except_ok_bind]

lemma mkImageClassification_isOk (c : MobileNetV2Config) :
    ∃ m, mkImageClassification c = .ok m := by
  obtain ⟨b, hb⟩ := mkMobileNetV2Model_isOk c true
  exact ⟨_, by rw [mkImageClassification, hb, except_ok_bind]⟩

lemma mkSemanticSegmentation_isOk (c : MobileNetV2Config) :
    ∃ m, mkSemanticSegmentation c = .ok m := by
  obtain ⟨b, hb⟩ := mkMobileNetV2Model_isOk c false
  exact ⟨_, by rw [mkSemanticSegmentation, hb, except_ok_bind,
    mkDeepLabV3Plus_eq_ok, except_ok_bind]⟩

/-- Witness for C1: the block `mkInvertedResidual cfgW 16 16 1 1` (stride 1,
equal channels, so the skip connection is used) at input `var 0`. -/
theorem invertedResidual_forward_spec_witness :
    mkInvertedResidual cfgW 16 16 1 1 = .ok invW ∧
    invW.forward (.var 0) =
      .add (.var 0) (invW.reduce_1x1.forward (invW.conv_3x3.forward
        (invW.expand_1x1.forward (.var 0)))) ∧
    (invW.use_residual = true ↔ (1 : ℕ) = 1 ∧ (16 : ℤ) = 16) := by
  have h0 : mkInvertedResidual cfgW 16 16 1 1 = .ok (invertedResidualOf cfgW 16 16 1 1) :=
    mkInvertedResidual_eq_ok (Or.inl rfl)
  have h : mkInvertedResidual cfgW 16 16 1 1 = .ok invW := by
    unfold invW
    exact except_ok_getD h0
  have spec := invertedResidual_forward_spec cfgW 16 16 1 1 invW (.var 0) h
  refine ⟨h, ?_, spec.2.2.2.2.2.2.2.2.2.2.2.2.2.2⟩
  have h1 := spec.1
  rw [if_pos ⟨rfl, rfl⟩] at h1
  exact h1

lemma getD_map_int (f : ℤ → ℤ) (l : List ℤ) (i : ℕ) (h : i < l.length) :
    (l.map f).getD i 0 = f (l.getD i 0) := by
  rw [List.getD_eq_getElem?_getD, List.getD_eq_getElem?_getD, List.getElem?_map,
    List.getElem?_eq_getElem h]
  rfl

lemma layerPlan_getD_shape (os : ℕ) (ss : List ℕ) : ∀ cur dil i, i < ss.length →
    (((layerPlan os ss cur dil).getD i default).layer_stride =
      if ((layerPlan os ss cur dil).getD i default).current_stride = os then 1
      else ss.getD i 0) ∧
    (((layerPlan os ss cur dil).getD i default).layer_dilation =
      if ((layerPlan os ss cur dil).getD i default).current_stride = os
      then ((layerPlan os ss cur dil).getD i default).dilation else 1) := by
  induction ss with
  | nil => intro cur dil i hi; simp at hi
  | cons s rest ih =>
    intro cur dil i hi
    by_cases hc : cur = os
    · rw [show layerPlan os (s :: rest) cur dil =
        ⟨cur, dil, 1, dil⟩ :: layerPlan os rest cur (dil * s) from by
          rw [layerPlan, if_pos hc]]
      cases i with
      | zero => simp [hc]
      | succ i =>
        simp only [List.getD_cons_succ]
        exact ih cur (dil * s) i (by simpa using hi)
    · rw [show layerPlan os (s :: rest) cur dil =
        ⟨cur, dil, s, 1⟩ :: layerPlan os rest (cur * s) dil from by
          rw [layerPlan, if_neg hc]]
      cases i with
      | zero => simp [hc]
      | succ i =>
        simp only [List.getD_cons_succ]
        exact ih (cur * s) dil i (by simpa using hi)

lemma mkImageClassification_ok {c : MobileNetV2Config}
    {mcls : MobileNetV2ForImageClassification}
    (h : mkImageClassification c = .ok mcls) :
    mcls.config = c ∧ mcls.num_labels = c.num_labels ∧
    mkMobileNetV2Model c true = .ok mcls.mobilenet_v2 ∧
    mcls.last_hidden_size = mcls.mobilenet_v2.conv_1x1.convolution.out_channels := by
  rw [mkImageClassification] at h
  rcases except_bind_ok.mp h with ⟨b, hb, h⟩
  simp only [Except.ok.injEq] at h
  subst h
  exact ⟨rfl, rfl, hb, rfl⟩

lemma mkSemanticSegmentation_ok {c : MobileNetV2Config}
    {mseg : MobileNetV2ForSemanticSegmentation}
    (h : mkSemanticSegmentation c = .ok mseg) :
    mseg.config = c ∧ mseg.num_labels = c.num_labels ∧
    mkMobileNetV2Model c false = .ok mseg.mobilenet_v2 ∧
    mkDeepLabV3Plus c = .ok mseg.segmentation_head := by
  rw [mkSemanticSegmentation] at h
  rcases except_bind_ok.mp h with ⟨b, hb, h⟩
  rcases except_bind_ok.mp h with ⟨hd, hhd, h⟩
  simp only [Except.ok.injEq] at h
  subst h
  exact ⟨rfl, rfl, hb, hhd⟩

lemma model_forward_some (m : MobileNetV2Model) (pv : TExpr) (a r : Option Bool) :
    m.forward (some pv) a r =
      if r.getD m.config.use_return_dict = false then
        .ok (.tuple ([Value.tensor (m.conv_1x1.forward (runBlocks m.layer (m.conv_stem.forward pv)))]
          ++ (if m.pooler then
                [Value.tensor (.flatten 1 (.adaptiveAvgPool 1
                  (m.conv_1x1.forward (runBlocks m.layer (m.conv_stem.forward pv)))))]
              else [])
          ++ (if a.getD m.config.output_hidden_states then
                [Value.tensorTuple (blockOutputs m.layer (m.conv_stem.forward pv))]
              else [])))
      else
        .ok (.record
          { last_hidden_state := m.conv_1x1.forward (runBlocks m.layer (m.conv_stem.forward pv))
            pooler_output :=
              if m.pooler then
                some (.flatten 1 (.adaptiveAvgPool 1
                  (m.conv_1x1.forward (runBlocks m.layer (m.conv_stem.forward pv)))))
              else none
            hidden_states :=
              if a.getD m.config.output_hidden_states then
                some (blockOutputs m.layer (m.conv_stem.forward pv))
              else none }) := by
  cases hohs : a.getD m.config.output_hidden_states with
  | false =>
    cases hrd : r.getD m.config.use_return_dict with
    | false =>
      cases hp : m.pooler <;>
        simp [MobileNetV2Model.forward, hohs, hrd, hp, encoderLoop_false]
    | true =>
      cases hp : m.pooler <;>
        simp [MobileNetV2Model.forward, hohs, hrd, hp, encoderLoop_false]
  | true =>
    cases hrd : r.getD m.config.use_return_dict with
    | false =>
      cases hp : m.pooler <;>
        simp [MobileNetV2Model.forward, hohs, hrd, hp, encoderLoop_true]
    | true =>
      cases hp : m.pooler <;>
        simp [MobileNetV2Model.forward, hohs, hrd, hp, encoderLoop_true]

/-- C2: a successfully constructed `MobileNetV2Model` has exactly sixteen
inverted-residual blocks; the projection channel list is
`[16, 24, 24, 32, 32, 32, 64, 64, 64, 64, 96, 96, 96, 160, 160, 160, 320]`
with `apply_depth_multiplier` applied to each element, block `i` taking
element `i` in and element `i + 1` out; the nominal depthwise strides are
`[2, 1, 2, 1, 1, 2, 1, 1, 1, 1, 1, 1, 2, 1, 1, 1]` (realised through the
construction plan, which only deviates once the output stride is reached);
and the stem expands to `apply_depth_multiplier config 32` channels. -/
theorem model_architecture_spec (c : MobileNetV2Config) (pool : Bool)
    (m : MobileNetV2Model) (h : mkMobileNetV2Model c pool = .ok m) :
    m.layer.length = 16 ∧
    baseChannels = [16, 24, 24, 32, 32, 32, 64, 64, 64, 64, 96, 96, 96, 160, 160, 160, 320] ∧
    baseStrides = [2, 1, 2, 1, 1, 2, 1, 1, 1, 1, 1, 1, 2, 1, 1, 1] ∧
    m.conv_stem.first_conv.convolution.out_channels = apply_depth_multiplier c 32 ∧
    m.conv_stem.conv_3x3.convolution.in_channels = apply_depth_multiplier c 32 ∧
    (∀ i, i < 16 →
      (m.layer.getD i default).expand_1x1.convolution.in_channels =
        apply_depth_multiplier c (baseChannels.getD i 0) ∧
      (m.layer.getD i default).reduce_1x1.convolution.out_channels =
        apply_depth_multiplier c (baseChannels.getD (i + 1) 0) ∧
      (m.layer.getD i default).conv_3x3.convolution.stride =
        ((layerPlan c.output_stride baseStrides 2 1).getD i default).layer_stride ∧
      (m.layer.getD i default).conv_3x3.convolution.dilation =
        ((layerPlan c.output_stride baseStrides 2 1).getD i default).layer_dilation) := by
  obtain ⟨-, -, hstem, hbl, -⟩ := mkModel_ok h
  obtain ⟨hlen, hidx⟩ := buildLayers_ok c baseStrides
    (baseChannels.map (apply_depth_multiplier c)) 2 1 m.layer hbl
  refine ⟨by rw [hlen]; rfl, rfl, rfl, by rw [hstem]; rfl, by rw [hstem]; rfl, ?_⟩
  intro i hi
  have hi' : i < baseStrides.length := by
    rw [show baseStrides.length = 16 from rfl]
    exact hi
  have hx := hidx i hi'
  have e1 := getD_map_int (apply_depth_multiplier c) baseChannels i
    (by rw [show baseChannels.length = 17 from rfl]; omega)
  have e2 := getD_map_int (apply_depth_multiplier c) baseChannels (i + 1)
    (by rw [show baseChannels.length = 17 from rfl]; omega)
  rw [hx, e1, e2]
  exact ⟨rfl, rfl, rfl, rfl⟩

/-- Witness for C2 on the concrete model built from `cfgW`. -/
theorem model_architecture_spec_witness :
    mkMobileNetV2Model cfgW true = .ok mW ∧ mW.layer.length = 16 := by
  obtain ⟨m, hm⟩ := mkMobileNetV2Model_isOk cfgW true
  have h : mkMobileNetV2Model cfgW true = .ok mW := by
    unfold mW
    exact except_ok_getD hm
  exact ⟨h, (model_architecture_spec cfgW true mW h).1⟩

/-- C8: in the construction loop's plan, a block whose accumulated stride has
reached `config.output_stride` is built with stride 1 and the accumulated
dilation, and otherwise with the nominal stride and dilation 1; the
accumulated stride before block `i` is 2 (the stem) times the product of the
strides the earlier blocks were built with; and once the accumulated stride
equals `config.output_stride` it stays there, so the cumulative downsampling
factor never exceeds the output stride after reaching it. -/
theorem output_stride_invariant_spec (c : MobileNetV2Config) (pool : Bool)
    (m : MobileNetV2Model) (h : mkMobileNetV2Model c pool = .ok m) :
    (∀ i, i < 16 →
      ((((layerPlan c.output_stride baseStrides 2 1).getD i default).current_stride =
          c.output_stride →
        (m.layer.getD i default).conv_3x3.convolution.stride = 1 ∧
        (m.layer.getD i default).conv_3x3.convolution.dilation =
          ((layerPlan c.output_stride baseStrides 2 1).getD i default).dilation) ∧
       (((layerPlan c.output_stride baseStrides 2 1).getD i default).current_stride ≠
          c.output_stride →
        (m.layer.getD i default).conv_3x3.convolution.stride = baseStrides.getD i 0 ∧
        (m.layer.getD i default).conv_3x3.convolution.dilation = 1))) ∧
    (∀ i, i < 16 →
      ((layerPlan c.output_stride baseStrides 2 1).getD i default).current_stride =
        2 * (((layerPlan c.output_stride baseStrides 2 1).take i).map
          PlanEntry.layer_stride).prod) ∧
    (∀ i j, i ≤ j → j < 16 →
      ((layerPlan c.output_stride baseStrides 2 1).getD i default).current_stride =
        c.output_stride →
      ((layerPlan c.output_stride baseStrides 2 1).getD j default).current_stride =
        c.output_stride) := by
  obtain ⟨-, -, -, hbl, -⟩ := mkModel_ok h
  obtain ⟨-, hidx⟩ := buildLayers_ok c baseStrides
    (baseChannels.map (apply_depth_multiplier c)) 2 1 m.layer hbl
  have hlen16 : baseStrides.length = 16 := rfl
  refine ⟨?_, ?_, ?_⟩
  · intro i hi
    have hi' : i < baseStrides.length := by rw [hlen16]; exact hi
    have hx := hidx i hi'
    obtain ⟨hst, hdil⟩ := layerPlan_getD_shape c.output_stride baseStrides 2 1 i hi'
    have hs : (m.layer.getD i default).conv_3x3.convolution.stride =
        ((layerPlan c.output_stride baseStrides 2 1).getD i default).layer_stride := by
      rw [hx]; rfl
    have hd : (m.layer.getD i default).conv_3x3.convolution.dilation =
        ((layerPlan c.output_stride baseStrides 2 1).getD i default).layer_dilation := by
      rw [hx]; rfl
    constructor
    · intro hcur
      exact ⟨by rw [hs, hst, if_pos hcur], by rw [hd, hdil, if_pos hcur]⟩
    · intro hcur
      exact ⟨by rw [hs, hst, if_neg hcur], by rw [hd, hdil, if_neg hcur]⟩
  · intro i hi
    exact layerPlan_current_prod c.output_stride baseStrides 2 1 i (by rw [hlen16]; exact hi)
  · intro i j hij hj hcur
    exact layerPlan_mono c.output_stride baseStrides 2 1 i j hij
      (by rw [hlen16]; exact hj) hcur

/-- Witness for C8 on the concrete model built from `cfgW`: the accumulated
stride before block 0 is the stem's factor 2. -/
theorem output_stride_invariant_spec_witness :
    mkMobileNetV2Model cfgW true = .ok mW ∧
    ((layerPlan cfgW.output_stride baseStrides 2 1).getD 0 default).current_stride =
      2 * (((layerPlan cfgW.output_stride baseStrides 2 1).take 0).map
        PlanEntry.layer_stride).prod := by
  obtain ⟨m, hm⟩ := mkMobileNetV2Model_isOk cfgW true
  have h : mkMobileNetV2Model cfgW true = .ok mW := by
    unfold mW
    exact except_ok_getD hm
  exact ⟨h, (output_stride_invariant_spec cfgW true mW h).2.1 0 (by norm_num)⟩

/-- C4: on a non-`None` input, when `output_hidden_states` resolves to true
(from the argument or, failing that, the config), the collected hidden states
are exactly the sixteen block outputs in order — element `i` is the result of
running blocks `0..i` on the stem output — and the last element is the tensor
the final 1x1 conv is applied to; when it resolves to false, the hidden
states are `None`. -/
theorem hidden_states_collection_spec (c : MobileNetV2Config) (pool : Bool)
    (m : MobileNetV2Model) (h : mkMobileNetV2Model c pool = .ok m)
    (pv : TExpr) (a r : Option Bool) :
    ∃ res, m.forward (some pv) a r = .ok res ∧
      (a.getD c.output_hidden_states = true →
        res.hiddenStatesOf = some (blockOutputs m.layer (m.conv_stem.forward pv)) ∧
        (blockOutputs m.layer (m.conv_stem.forward pv)).length = 16 ∧
        (∀ i, i < 16 → (blockOutputs m.layer (m.conv_stem.forward pv)).getD i (.var 0) =
          runBlocks (m.layer.take (i + 1)) (m.conv_stem.forward pv)) ∧
        (blockOutputs m.layer (m.conv_stem.forward pv)).getLast? =
          some (runBlocks m.layer (m.conv_stem.forward pv)) ∧
        res.lastHiddenOf =
          some (m.conv_1x1.forward (runBlocks m.layer (m.conv_stem.forward pv)))) ∧
      (a.getD c.output_hidden_states = false → res.hiddenStatesOf = none) := by
  obtain ⟨hcfg, -, -, hbl, -⟩ := mkModel_ok h
  obtain ⟨hlen, -⟩ := buildLayers_ok c baseStrides
    (baseChannels.map (apply_depth_multiplier c)) 2 1 m.layer hbl
  have hlen16 : m.layer.length = 16 := by rw [hlen]; rfl
  have hne : m.layer ≠ [] := by
    intro he
    rw [he] at hlen16
    simp at hlen16
  have hblen : (blockOutputs m.layer (m.conv_stem.forward pv)).length = 16 := by
    rw [blockOutputs_length, hlen16]
  have hbidx : ∀ i, i < 16 →
      (blockOutputs m.layer (m.conv_stem.forward pv)).getD i (.var 0) =
        runBlocks (m.layer.take (i + 1)) (m.conv_stem.forward pv) := by
    intro i hi
    exact blockOutputs_getD m.layer (m.conv_stem.forward pv) (.var 0) i (by omega)
  have hlast := blockOutputs_getLast m.layer (m.conv_stem.forward pv) hne
  have hfwd := model_forward_some m pv a r
  by_cases hrd : r.getD m.config.use_return_dict = false
  · rw [if_pos hrd] at hfwd
    refine ⟨_, hfwd, ?_, ?_⟩
    · intro hohs
      have hohs' : a.getD m.config.output_hidden_states = true := by rw [hcfg]; exact hohs
      refine ⟨?_, hblen, hbidx, hlast, ?_⟩
      · cases hp : m.pooler <;>
          simp [ModelResult.hiddenStatesOf, hohs', hp, List.getLast?]
      · cases hp : m.pooler <;>
          simp [ModelResult.lastHiddenOf, hohs', hp]
    · intro hohs
      have hohs' : a.getD m.config.output_hidden_states = false := by rw [hcfg]; exact hohs
      cases hp : m.pooler <;>
        simp [ModelResult.hiddenStatesOf, hohs', hp]
  · rw [if_neg hrd] at hfwd
    refine ⟨_, hfwd, ?_, ?_⟩
    · intro hohs
      have hohs' : a.getD m.config.output_hidden_states = true := by rw [hcfg]; exact hohs
      refine ⟨?_, hblen, hbidx, hlast, ?_⟩
      · simp [ModelResult.hiddenStatesOf, hohs']
      · simp [ModelResult.lastHiddenOf]
    · intro hohs
      have hohs' : a.getD m.config.output_hidden_states = false := by rw [hcfg]; exact hohs
      simp [ModelResult.hiddenStatesOf, hohs']

/-- Witness for C4 on the concrete model built from `cfgW`, with the
`output_hidden_states` argument `some true`. -/
theorem hidden_states_collection_spec_witness :
    mkMobileNetV2Model cfgW true = .ok mW ∧
    (blockOutputs mW.layer (mW.conv_stem.forward (.var 0))).length = 16 := by
  obtain ⟨m, hm⟩ := mkMobileNetV2Model_isOk cfgW true
  have h : mkMobileNetV2Model cfgW true = .ok mW := by
    unfold mW
    exact except_ok_getD hm
  obtain ⟨res, -, himp, -⟩ :=
    hidden_states_collection_spec cfgW true mW h (.var 0) (some true) none
  exact ⟨h, (himp rfl).2.1⟩

/-- C5: on a non-`None` input, when `return_dict` resolves to false the
result is a tuple holding, in order, exactly the non-`None` values among the
last hidden state, the pooled output (present iff the pooling layer exists)
and the collected hidden states (present iff they were collected) — so its
length is 1, 2 or 3; when `return_dict` resolves to true the result is a
`BaseModelOutputWithPoolingAndNoAttention` carrying the same three values in
its named fields. -/
theorem return_convention_spec (c : MobileNetV2Config) (pool : Bool)
    (m : MobileNetV2Model) (h : mkMobileNetV2Model c pool = .ok m)
    (pv : TExpr) (a r : Option Bool) :
    (r.getD c.use_return_dict = false →
      m.forward (some pv) a r = .ok (.tuple (
        [Value.tensor (m.conv_1x1.forward (runBlocks m.layer (m.conv_stem.forward pv)))]
        ++ (if pool then
              [Value.tensor (.flatten 1 (.adaptiveAvgPool 1
                (m.conv_1x1.forward (runBlocks m.layer (m.conv_stem.forward pv)))))]
            else [])
        ++ (if a.getD c.output_hidden_states then
              [Value.tensorTuple (blockOutputs m.layer (m.conv_stem.forward pv))]
            else []))) ∧
      ([Value.tensor (m.conv_1x1.forward (runBlocks m.layer (m.conv_stem.forward pv)))]
        ++ (if pool then
              [Value.tensor (.flatten 1 (.adaptiveAvgPool 1
                (m.conv_1x1.forward (runBlocks m.layer (m.conv_stem.forward pv)))))]
            else [])
        ++ (if a.getD c.output_hidden_states then
              [Value.tensorTuple (blockOutputs m.layer (m.conv_stem.forward pv))]
            else [])).length =
        1 + (if pool then 1 else 0) + (if a.getD c.output_hidden_states then 1 else 0)) ∧
    (r.getD c.use_return_dict = true →
      m.forward (some pv) a r = .ok (.record
        { last_hidden_state := m.conv_1x1.forward (runBlocks m.layer (m.conv_stem.forward pv))
          pooler_output :=
            if pool then
              some (.flatten 1 (.adaptiveAvgPool 1
                (m.conv_1x1.forward (runBlocks m.layer (m.conv_stem.forward pv)))))
            else none
          hidden_states :=
            if a.getD c.output_hidden_states then
              some (blockOutputs m.layer (m.conv_stem.forward pv))
            else none })) := by
  obtain ⟨hcfg, hpool, -, -, -⟩ := mkModel_ok h
  have hfwd := model_forward_some m pv a r
  rw [hcfg, hpool] at hfwd
  constructor
  · intro hrd
    rw [hrd] at hfwd
    rw [if_pos rfl] at hfwd
    refine ⟨hfwd, ?_⟩
    cases hp : pool <;> cases hohs : a.getD c.output_hidden_states <;> simp [hp, hohs]
  · intro hrd
    rw [hrd] at hfwd
    rw [if_neg (by simp)] at hfwd
    exact hfwd

/-- Witness for C5 on the concrete model built from `cfgW`, with
`return_dict = some true` and `output_hidden_states = some false`. -/
theorem return_convention_spec_witness :
    mkMobileNetV2Model cfgW true = .ok mW ∧
    mW.forward (some (.var 0)) (some false) (some true) = .ok (.record
      { last_hidden_state := mW.conv_1x1.forward (runBlocks mW.layer (mW.conv_stem.forward (.var 0)))
        pooler_output := some (.flatten 1 (.adaptiveAvgPool 1
          (mW.conv_1x1.forward (runBlocks mW.layer (mW.conv_stem.forward (.var 0))))))
        hidden_states := none }) := by
  obtain ⟨m, hm⟩ := mkMobileNetV2Model_isOk cfgW true
  have h : mkMobileNetV2Model cfgW true = .ok mW := by
    unfold mW
    exact except_ok_getD hm
  have h2 := (return_convention_spec cfgW true mW h (.var 0) (some false) (some true)).2 rfl
  refine ⟨h, ?_⟩
  simpa using h2

/-- C9: `MobileNetV2Model.forward` fails with exactly the message
"You have to specify pixel_values" if and only if `pixel_values` is `None`;
the check precedes every layer application, and on a present input the call
never produces that error. -/
theorem pixel_values_required_spec (m : MobileNetV2Model) (a r : Option Bool)
    (pv : Option TExpr) :
    m.forward pv a r = .error "You have to specify pixel_values" ↔ pv = none := by
  cases pv with
  | none => simp [MobileNetV2Model.forward]
  | some x =>
    rw [model_forward_some]
    by_cases hrd : r.getD m.config.use_return_dict = false
    · rw [if_pos hrd]
      simp
    · rw [if_neg hrd]
      simp

/-- C7: the DeepLabV3+ head fuses a pooled branch (global average pool to
1x1, a 1x1 conv, bilinear upsampling back to the input's spatial size) with
an atrous-spatial-pyramid branch (`conv_aspp` on the unpooled features),
concatenates the two 256-channel branches along the channel dimension into
the projection's 512 input channels, and finishes with the projection conv,
dropout, and a biased 1x1 classifier conv producing `config.num_labels`
output channels. -/
theorem deeplab_forward_spec (c : MobileNetV2Config)
    (hd : MobileNetV2DeepLabV3Plus) (h : mkDeepLabV3Plus c = .ok hd) (x : TExpr) :
    deepLabV3PlusForward hd x =
      hd.classifier.forward (.dropout (hd.conv_projection.forward
        (.cat 1 (.interpolate x true (hd.conv_pool.forward (.adaptiveAvgPool 1 x)))
          (hd.conv_aspp.forward x)))) ∧
    hd.conv_pool.convolution.out_channels = 256 ∧
    hd.conv_aspp.convolution.out_channels = 256 ∧
    hd.conv_pool.convolution.in_channels = apply_depth_multiplier c 320 ∧
    hd.conv_aspp.convolution.in_channels = apply_depth_multiplier c 320 ∧
    hd.conv_projection.convolution.in_channels = 256 + 256 ∧
    hd.conv_projection.convolution.out_channels = 256 ∧
    hd.classifier.convolution.out_channels = c.num_labels ∧
    hd.classifier.convolution.kernel_size = 1 ∧
    hd.classifier.convolution.bias = true ∧
    hd.classifier.normalization = none ∧
    hd.classifier.activation = none ∧
    hd.conv_pool.convolution.kernel_size = 1 ∧
    hd.conv_aspp.convolution.kernel_size = 1 := by
  have hhd := mkDeepLabV3Plus_ok h
  subst hhd
  refine ⟨rfl, rfl, rfl, rfl, rfl, by rfl, rfl, rfl, rfl, rfl, rfl, rfl, rfl, rfl⟩

/-- Witness for C7 on the concrete head built from `cfgW`: the concatenated
channels match the projection's 512 input channels. -/
theorem deeplab_forward_spec_witness :
    mkDeepLabV3Plus cfgW = .ok dlW ∧
    dlW.conv_projection.convolution.in_channels = 256 + 256 := by
  have h : mkDeepLabV3Plus cfgW = .ok dlW := by
    unfold dlW
    exact except_ok_getD (mkDeepLabV3Plus_eq_ok cfgW)
  exact ⟨h, (deeplab_forward_spec cfgW dlW h (.var 0)).2.2.2.2.2.1⟩

lemma imageClassificationForward_run (c : MobileNetV2Config)
    (mcls : MobileNetV2ForImageClassification) (h : mkImageClassification c = .ok mcls)
    (pv : TExpr) (a r : Option Bool) (lbopt : Option Labels) :
    imageClassificationForward mcls (some pv) a lbopt r =
      .ok (resolvedProblemType mcls lbopt,
        if r.getD c.use_return_dict = false then
          .tuple (match clsLossChoice mcls lbopt (clsLogits mcls pv) with
            | some l => OutItem.loss l :: OutItem.val (.tensor (clsLogits mcls pv)) ::
                (if a.getD c.output_hidden_states then
                  [OutItem.val (.tensorTuple (blockOutputs mcls.mobilenet_v2.layer
                    (mcls.mobilenet_v2.conv_stem.forward pv)))]
                 else [])
            | none => OutItem.val (.tensor (clsLogits mcls pv)) ::
                (if a.getD c.output_hidden_states then
                  [OutItem.val (.tensorTuple (blockOutputs mcls.mobilenet_v2.layer
                    (mcls.mobilenet_v2.conv_stem.forward pv)))]
                 else []))
        else
          .record { loss := clsLossChoice mcls lbopt (clsLogits mcls pv)
                    logits := clsLogits mcls pv
                    hidden_states :=
                      if a.getD c.output_hidden_states then
                        some (blockOutputs mcls.mobilenet_v2.layer
                          (mcls.mobilenet_v2.conv_stem.forward pv))
                      else none }) := by
  obtain ⟨hc, hnl, hm, hsz⟩ := mkImageClassification_ok h
  obtain ⟨hmc, hmp, -, -, -⟩ := mkModel_ok hm
  have hout := model_forward_some mcls.mobilenet_v2 pv a
    (some (r.getD c.use_return_dict))
  rw [hmc, hmp] at hout
  simp only [Option.getD_some] at hout
  cases lbopt with
  | none =>
    by_cases hrd : r.getD c.use_return_dict = false
    · rw [hrd] at hout
      rw [if_pos rfl] at hout
      cases hohs : a.getD c.output_hidden_states <;>
        simp [imageClassificationForward, hc, hrd, hout, hohs, except_ok_bind,
          clsLossChoice, clsLogits]
    · have hrd' : r.getD c.use_return_dict = true := by
        cases hb : r.getD c.use_return_dict
        · exact absurd hb hrd
        · rfl
      rw [hrd'] at hout
      rw [if_neg (by simp)] at hout
      cases hohs : a.getD c.output_hidden_states <;>
        simp [imageClassificationForward, hc, hrd', hout, hohs, except_ok_bind,
          clsLossChoice, clsLogits]
  | some lb =>
    by_cases hrd : r.getD c.use_return_dict = false
    · rw [hrd] at hout
      rw [if_pos rfl] at hout
      cases hohs : a.getD c.output_hidden_states <;>
        simp [imageClassificationForward, hc, hrd, hout, hohs, except_ok_bind,
          clsLossChoice, clsLogits]
    · have hrd' : r.getD c.use_return_dict = true := by
        cases hb : r.getD c.use_return_dict
        · exact absurd hb hrd
        · rfl
      rw [hrd'] at hout
      rw [if_neg (by simp)] at hout
      cases hohs : a.getD c.output_hidden_states <;>
        simp [imageClassificationForward, hc, hrd', hout, hohs, except_ok_bind,
          clsLossChoice, clsLogits]

lemma cls_forward_isOk (c : MobileNetV2Config)
    (mcls : MobileNetV2ForImageClassification) (h : mkImageClassification c = .ok mcls)
    (pv : TExpr) (a r : Option Bool) (lbopt : Option Labels) :
    exIsOk (imageClassificationForward mcls (some pv) a lbopt r) = true := by
  rw [imageClassificationForward_run c mcls h pv a r lbopt]
  rfl

lemma cls_forward_pt (c : MobileNetV2Config)
    (mcls : MobileNetV2ForImageClassification) (h : mkImageClassification c = .ok mcls)
    (pv : TExpr) (a r : Option Bool) (lbopt : Option Labels) :
    exClsProblemType (imageClassificationForward mcls (some pv) a lbopt r) =
      resolvedProblemType mcls lbopt := by
  rw [imageClassificationForward_run c mcls h pv a r lbopt]
  rfl

lemma cls_forward_loss (c : MobileNetV2Config)
    (mcls : MobileNetV2ForImageClassification) (h : mkImageClassification c = .ok mcls)
    (pv : TExpr) (a r : Option Bool) (lbopt : Option Labels) :
    exClsLoss (imageClassificationForward mcls (some pv) a lbopt r) =
      clsLossChoice mcls lbopt (clsLogits mcls pv) := by
  rw [imageClassificationForward_run c mcls h pv a r lbopt]
  by_cases hrd : r.getD c.use_return_dict = false
  · rw [if_pos hrd]
    cases hl : clsLossChoice mcls lbopt (clsLogits mcls pv) <;>
      simp [exClsLoss, ClassifierResult.lossOf, hl]
  · rw [if_neg hrd]
    simp [exClsLoss, ClassifierResult.lossOf]

lemma cls_forward_tuple_noloss (c : MobileNetV2Config)
    (mcls : MobileNetV2ForImageClassification) (h : mkImageClassification c = .ok mcls)
    (pv : TExpr) (a r : Option Bool) (hrd : r.getD c.use_return_dict = false) :
    exClsResult (imageClassificationForward mcls (some pv) a none r) =
      some (.tuple (OutItem.val (.tensor (clsLogits mcls pv)) ::
        (if a.getD c.output_hidden_states then
          [OutItem.val (.tensorTuple (blockOutputs mcls.mobilenet_v2.layer
            (mcls.mobilenet_v2.conv_stem.forward pv)))]
         else []))) := by
  rw [imageClassificationForward_run c mcls h pv a r none, if_pos hrd]
  simp [exClsResult, clsLossChoice]

/-- C6: with labels given and no configured problem type, the problem type is
set to "regression" when `num_labels == 1`, to "single_label_classification"
when `num_labels > 1` and the labels dtype is int64 or int32, and to
"multi_label_classification" otherwise; the loss is then MSE for regression
(on squeezed tensors when `num_labels == 1`), cross-entropy for single-label
classification, and binary cross-entropy with logits for multi-label
classification; without labels the loss is `None` and is omitted from the
tuple output. -/
theorem classification_loss_spec (c : MobileNetV2Config)
    (mcls : MobileNetV2ForImageClassification) (h : mkImageClassification c = .ok mcls)
    (pv : TExpr) (a r : Option Bool) (lb : Labels) (hpt : c.problem_type = none) :
    exIsOk (imageClassificationForward mcls (some pv) a (some lb) r) = true ∧
    exClsProblemType (imageClassificationForward mcls (some pv) a (some lb) r) =
      some (if c.num_labels = 1 then "regression"
        else if c.num_labels > 1 ∧ (lb.dtype = .int64 ∨ lb.dtype = .int32) then
          "single_label_classification"
        else "multi_label_classification") ∧
    (c.num_labels = 1 →
      exClsLoss (imageClassificationForward mcls (some pv) a (some lb) r) =
        some (.mse (.squeeze (clsLogits mcls pv)) (.squeeze lb.expr))) ∧
    (c.num_labels > 1 ∧ (lb.dtype = .int64 ∨ lb.dtype = .int32) →
      exClsLoss (imageClassificationForward mcls (some pv) a (some lb) r) =
        some (.crossEntropy (.view [-1, c.num_labels] (clsLogits mcls pv))
          (.view [-1] lb.expr) none)) ∧
    (¬c.num_labels = 1 ∧ ¬(c.num_labels > 1 ∧ (lb.dtype = .int64 ∨ lb.dtype = .int32)) →
      exClsLoss (imageClassificationForward mcls (some pv) a (some lb) r) =
        some (.bceWithLogits (clsLogits mcls pv) lb.expr)) ∧
    exIsOk (imageClassificationForward mcls (some pv) a none r) = true ∧
    exClsLoss (imageClassificationForward mcls (some pv) a none r) = none ∧
    (r.getD c.use_return_dict = false →
      exClsResult (imageClassificationForward mcls (some pv) a none r) =
        some (.tuple (OutItem.val (.tensor (clsLogits mcls pv)) ::
          (if a.getD c.output_hidden_states then
            [OutItem.val (.tensorTuple (blockOutputs mcls.mobilenet_v2.layer
              (mcls.mobilenet_v2.conv_stem.forward pv)))]
           else [])))) := by
  obtain ⟨hc, hnl, -, -⟩ := mkImageClassification_ok h
  have hptm : mcls.config.problem_type = none := by rw [hc]; exact hpt
  have hres : resolvedProblemType mcls (some lb) =
      some (if c.num_labels = 1 then "regression"
        else if c.num_labels > 1 ∧ (lb.dtype = .int64 ∨ lb.dtype = .int32) then
          "single_label_classification"
        else "multi_label_classification") := by
    unfold resolvedProblemType
    rw [hptm, hnl]
    by_cases h1 : c.num_labels = 1
    · simp [h1]
    · by_cases h2 : c.num_labels > 1 ∧ (lb.dtype = DType.int64 ∨ lb.dtype = DType.int32)
      · simp [h1, h2]
      · simp [h1, h2]
  refine ⟨cls_forward_isOk c mcls h pv a r (some lb), ?_, ?_, ?_, ?_,
    cls_forward_isOk c mcls h pv a r none, ?_, ?_⟩
  · rw [cls_forward_pt c mcls h pv a r (some lb), hres]
  · intro h1
    rw [cls_forward_loss c mcls h pv a r (some lb)]
    have : resolvedProblemType mcls (some lb) = some "regression" := by
      rw [hres, if_pos h1]
    rw [clsLossChoice, this]
    simp [hnl, h1]
  · intro h2
    have hne1 : ¬ c.num_labels = 1 := by
      intro hcon
      rw [hcon] at h2
      omega
    rw [cls_forward_loss c mcls h pv a r (some lb)]
    have : resolvedProblemType mcls (some lb) = some "single_label_classification" := by
      rw [hres, if_neg hne1, if_pos h2]
    rw [clsLossChoice, this]
    simp [hnl]
  · intro h3
    obtain ⟨hne1, hne2⟩ := h3
    rw [cls_forward_loss c mcls h pv a r (some lb)]
    have : resolvedProblemType mcls (some lb) = some "multi_label_classification" := by
      rw [hres, if_neg hne1, if_neg hne2]
    rw [clsLossChoice, this]
    simp
  · rw [cls_forward_loss c mcls h pv a r none]
    rfl
  · intro hrd
    exact cls_forward_tuple_noloss c mcls h pv a r hrd

/-- Witness for C6 on the classifier built from `cfgW` (two labels, no
configured problem type) with int64 labels: the problem type resolves to
single-label classification. -/
theorem classification_loss_spec_witness :
    mkImageClassification cfgW = .ok clsW ∧ cfgW.problem_type = none ∧
    exClsProblemType (imageClassificationForward clsW (some (.var 0)) none
      (some ⟨.int64, .var 1⟩) none) = some "single_label_classification" := by
  obtain ⟨m, hm⟩ := mkImageClassification_isOk cfgW
  have h : mkImageClassification cfgW = .ok clsW := by
    unfold clsW
    exact except_ok_getD hm
  have h2 := (classification_loss_spec cfgW clsW h (.var 0) none none
    ⟨.int64, .var 1⟩ rfl).2.1
  refine ⟨h, rfl, ?_⟩
  rw [h2]
  norm_num [cfgW]

/-- C10: `MobileNetV2ForSemanticSegmentation.forward` raises a `ValueError`
reading "The number of labels should be greater than one" whenever labels are
given and `config.num_labels == 1` — before the encoder runs, so even a
missing `pixel_values` does not change the outcome — and with no labels no
such check occurs: the call succeeds and the loss is simply `None`. -/
theorem segmentation_labels_check_spec (c : MobileNetV2Config)
    (mseg : MobileNetV2ForSemanticSegmentation)
    (h : mkSemanticSegmentation c = .ok mseg) :
    (∀ (pv : Option TExpr) (lb : Labels) (a r : Option Bool), c.num_labels = 1 →
      semanticSegmentationForward mseg pv (some lb) a r =
        .error "The number of labels should be greater than one") ∧
    (∀ (pv : TExpr) (a r : Option Bool),
      ∃ res, semanticSegmentationForward mseg (some pv) none a r = .ok res ∧
        res.lossOf = none) := by
  obtain ⟨hc, hnl, hm, hhd⟩ := mkSemanticSegmentation_ok h
  obtain ⟨hmc, hmp, -, hbl, -⟩ := mkModel_ok hm
  obtain ⟨hlen, -⟩ := buildLayers_ok c baseStrides
    (baseChannels.map (apply_depth_multiplier c)) 2 1 mseg.mobilenet_v2.layer hbl
  constructor
  · intro pv lb a r hn1
    have hn1' : mseg.config.num_labels = 1 := by rw [hc]; exact hn1
    simp [semanticSegmentationForward, hn1']
  · intro pv a r
    have hne : mseg.mobilenet_v2.layer ≠ [] := by
      intro he
      rw [he] at hlen
      simp [baseStrides] at hlen
    have hlast := blockOutputs_getLast mseg.mobilenet_v2.layer
      (mseg.mobilenet_v2.conv_stem.forward pv) hne
    have hout := model_forward_some mseg.mobilenet_v2 pv (some true)
      (some (r.getD c.use_return_dict))
    rw [hmc, hmp] at hout
    simp only [Option.getD_some] at hout
    simp only [if_true, Bool.false_eq_true, if_false, List.append_nil,
      List.nil_append] at hout
    by_cases hrd : r.getD c.use_return_dict = false
    · rw [hrd] at hout
      rw [if_pos rfl] at hout
      cases hohs : a.getD c.output_hidden_states with
      | false =>
        refine ⟨.tuple [OutItem.val (.tensor (deepLabV3PlusForward mseg.segmentation_head
          (runBlocks mseg.mobilenet_v2.layer (mseg.mobilenet_v2.conv_stem.forward pv))))],
          ?_, rfl⟩
        simp [semanticSegmentationForward, hc, hrd, hohs, hout, except_ok_bind, hlast]
      | true =>
        refine ⟨.tuple [OutItem.val (.tensor (deepLabV3PlusForward mseg.segmentation_head
          (runBlocks mseg.mobilenet_v2.layer (mseg.mobilenet_v2.conv_stem.forward pv)))),
          OutItem.val (.tensorTuple (blockOutputs mseg.mobilenet_v2.layer
            (mseg.mobilenet_v2.conv_stem.forward pv)))], ?_, rfl⟩
        simp [semanticSegmentationForward, hc, hrd, hohs, hout, except_ok_bind, hlast]
    · have hrd' : r.getD c.use_return_dict = true := by
        cases hb : r.getD c.use_return_dict
        · exact absurd hb hrd
        · rfl
      rw [hrd'] at hout
      rw [if_neg (by simp)] at hout
      cases hohs : a.getD c.output_hidden_states with
      | false =>
        refine ⟨.record
          { loss := none
            logits := deepLabV3PlusForward mseg.segmentation_head
              (runBlocks mseg.mobilenet_v2.layer (mseg.mobilenet_v2.conv_stem.forward pv))
            hidden_states := none
            attentions := none }, ?_, rfl⟩
        simp [semanticSegmentationForward, hc, hrd', hohs, hout, except_ok_bind, hlast]
      | true =>
        refine ⟨.record
          { loss := none
            logits := deepLabV3PlusForward mseg.segmentation_head
              (runBlocks mseg.mobilenet_v2.layer (mseg.mobilenet_v2.conv_stem.forward pv))
            hidden_states := some (blockOutputs mseg.mobilenet_v2.layer
              (mseg.mobilenet_v2.conv_stem.forward pv))
            attentions := none }, ?_, rfl⟩
        simp [semanticSegmentationForward, hc, hrd', hohs, hout, except_ok_bind, hlast]

/-- Witness for C10 on the concrete segmentation model built from `cfgW1`
(one label): with labels given the call fails with the labels error even
though `pixel_values` is also `None`. -/
theorem segmentation_labels_check_spec_witness :
    mkSemanticSegmentation cfgW1 = .ok segW ∧
    semanticSegmentationForward segW none (some ⟨.int64, .var 1⟩) none none =
      .error "The number of labels should be greater than one" := by
  obtain ⟨m, hm⟩ := mkSemanticSegmentation_isOk cfgW1
  have h : mkSemanticSegmentation cfgW1 = .ok segW := by
    unfold segW
    exact except_ok_getD hm
  exact ⟨h, (segmentation_labels_check_spec cfgW1 segW h).1 none ⟨.int64, .var 1⟩
    none none rfl⟩
